import Mathlib

/-!
# Verification of the zrnt per-epoch transition core

Shallow embedding of the consensus-critical parts of the repository:
indexed-attestation validation (`eth2/beacon/indexed.go`), the epoch
statistics collector `PrepareEpochProcess`, the registry churn manager
`ProcessEpochRegistryUpdates` (`eth2/beacon/registry.go`) and
`InitiateValidatorExit`.

Machine integers (`uint64`) are modelled as `Nat`: none of the verified
operations rely on wrap-around (epoch arithmetic in the code assumes
protocol-bounded values), and sentinel values such as `FAR_FUTURE_EPOCH`
are kept as their literal `2^64 - 1` value.  Go slices become `List`s,
mutation of a slice element becomes a functional point update, and Go's
`error` returns become `Except`.  The cooperative cancellation context is
modelled as a stream `ctx : Nat -> Bool` giving the value observed by the
n-th poll of `ctx.Done()`.
-/

namespace ZRNT

/- The scalar domain types of the Go code (`Epoch`, `Slot`, `Gwei`,
`ValidatorIndex`, `Root`) are all unsigned 64-bit scalars (roots are only
compared for equality); they are modelled uniformly as `Nat`. -/

/-- `FAR_FUTURE_EPOCH = Epoch(^uint64(0))` (src/eth2/beacon/constants.go). -/
def FAR_FUTURE_EPOCH : Nat := 2 ^ 64 - 1

/-- Modelled from the spec: the "earliest attesting proposer index
(sentinel until set)" of an `AttesterStatus`; the `ValidatorIndexMarker`
sentinel itself is declared in a file not present under src/. -/
def ValidatorIndexMarker : Nat := 2 ^ 64 - 1

/-- The protocol constants consumed by the verified functions, as carried by
the Go `Spec` configuration value. -/
structure SpecConfig where
  EPOCHS_PER_SLASHINGS_VECTOR : Nat
  MAX_EFFECTIVE_BALANCE : Nat
  EFFECTIVE_BALANCE_INCREMENT : Nat
  EJECTION_BALANCE : Nat
  MIN_PER_EPOCH_CHURN_LIMIT : Nat
  CHURN_LIMIT_QUOTIENT : Nat
  MIN_VALIDATOR_WITHDRAWABILITY_DELAY : Nat
  MAX_VALIDATORS_PER_COMMITTEE : Nat
  MAX_SEED_LOOKAHEAD : Nat
  SLOTS_PER_EPOCH : Nat
deriving Repr, DecidableEq

/-- Modelled from the spec: `ComputeActivationExitEpoch` ("a future
activation epoch computed from the current epoch plus a fixed delay");
the function body is not under src/.  All verified code treats it as an
opaque epoch strictly greater than the current epoch. -/
def ComputeActivationExitEpoch (spec : SpecConfig) (epoch : Nat) : Nat :=
  epoch + 1 + spec.MAX_SEED_LOOKAHEAD

/-- `GetChurnLimit` (src/unnamed/part_001, lines 42-44):
`math.MaxU64(spec.MIN_PER_EPOCH_CHURN_LIMIT, activeValidatorCount/spec.CHURN_LIMIT_QUOTIENT)`. -/
def GetChurnLimit (spec : SpecConfig) (activeValidatorCount : Nat) : Nat :=
  max spec.MIN_PER_EPOCH_CHURN_LIMIT (activeValidatorCount / spec.CHURN_LIMIT_QUOTIENT)

/-- `Checkpoint` (epoch, root pair). -/
structure Checkpoint where
  epoch : Nat
  root : Nat
deriving Repr, DecidableEq

/-- `AttestationData`, restricted to the fields read by the verified code. -/
structure AttestationData where
  slot : Nat
  index : Nat
  beaconBlockRoot : Nat
  source : Checkpoint
  target : Checkpoint
deriving Repr, DecidableEq

/-- `IndexedAttestation` (src/eth2/beacon/indexed.go, lines 47-51).  The
BLS signature bytes are opaque to the verified functions. -/
structure IndexedAttestation where
  attestingIndices : List Nat
  data : AttestationData
  signature : Nat
deriving Repr, DecidableEq

/-- Modelled from the spec: `sort.IsSorted` over a `ValidatorSet` (ascending
validator indices; the `ValidatorSet` ordering methods are not under src/).
`sort.IsSorted` checks that no adjacent pair descends. -/
def isSortedAscending : List Nat → Bool
  | [] => true
  | [_] => true
  | a :: b :: rest => a ≤ b && isSortedAscending (b :: rest)

/-- The adjacent-duplicate scan of `ValidateIndexedAttestationIndicesSet`
(src/eth2/beacon/indexed.go, lines 101-105). -/
def hasAdjacentDuplicate : List Nat → Bool
  | [] => false
  | [_] => false
  | a :: b :: rest => a == b || hasAdjacentDuplicate (b :: rest)

/-- `ValidateIndexedAttestationIndicesSet` (src/eth2/beacon/indexed.go,
lines 81-107): max-count check, non-emptiness, sortedness, adjacent
duplicates; on success the index sequence is returned as the set. -/
def ValidateIndexedAttestationIndicesSet (spec : SpecConfig)
    (indexedAttestation : IndexedAttestation) : Except String (List Nat) :=
  if spec.MAX_VALIDATORS_PER_COMMITTEE < indexedAttestation.attestingIndices.length then
    .error "invalid indices count in indexed attestation"
  else if indexedAttestation.attestingIndices.length ≤ 0 then
    .error "in phase 0 no empty attestation signatures are allowed"
  else if !isSortedAscending indexedAttestation.attestingIndices then
    .error "attestation indices are not sorted"
  else if hasAdjacentDuplicate indexedAttestation.attestingIndices then
    .error "attestation indices are duplicate"
  else
    .ok indexedAttestation.attestingIndices

/-- Modelled from the spec: `state.IsValidIndex` ("the maximum (last) index
to be within registry bounds"); the accessor body is not under src/.
`validatorCount` is the registry length. -/
def IsValidIndex (validatorCount : Nat) (index : Nat) : Bool :=
  index < validatorCount

/-- `ValidateIndexedAttestationNoSignature` (src/eth2/beacon/indexed.go,
lines 109-125): index-set validation followed by the registry-bound check
on the last (maximum) index. -/
def ValidateIndexedAttestationNoSignature (spec : SpecConfig) (validatorCount : Nat)
    (indexedAttestation : IndexedAttestation) : Except String Unit :=
  match ValidateIndexedAttestationIndicesSet spec indexedAttestation with
  | .error e => .error e
  | .ok indices =>
    match indices.getLast? with
    | none => .error "in phase 0 no empty attestation signatures are allowed"
    | some last =>
      if IsValidIndex validatorCount last then .ok ()
      else .error "attestation indices contain out of range index"

/-- A mainnet-sized sample configuration, used to evaluate the verified
functions on the concrete inputs of the spec's validation table. -/
def sampleSpec : SpecConfig where
  EPOCHS_PER_SLASHINGS_VECTOR := 8192
  MAX_EFFECTIVE_BALANCE := 32000000000
  EFFECTIVE_BALANCE_INCREMENT := 1000000000
  EJECTION_BALANCE := 16000000000
  MIN_PER_EPOCH_CHURN_LIMIT := 4
  CHURN_LIMIT_QUOTIENT := 65536
  MIN_VALIDATOR_WITHDRAWABILITY_DELAY := 256
  MAX_VALIDATORS_PER_COMMITTEE := 2048
  MAX_SEED_LOOKAHEAD := 4
  SLOTS_PER_EPOCH := 32

/-- An indexed attestation carrying the given attesting indices (the data
and signature fields are irrelevant to index-set validation). -/
def mkIndexedAttestation (indices : List Nat) : IndexedAttestation where
  attestingIndices := indices
  data := { slot := 0, index := 0, beaconBlockRoot := 0,
            source := { epoch := 0, root := 0 }, target := { epoch := 0, root := 0 } }
  signature := 0

lemma indicesSet_ok_iff (spec : SpecConfig) (att : IndexedAttestation)
    (xs : List Nat) :
    ValidateIndexedAttestationIndicesSet spec att = .ok xs ↔
      (¬ spec.MAX_VALIDATORS_PER_COMMITTEE < att.attestingIndices.length ∧
       att.attestingIndices.length ≠ 0 ∧
       isSortedAscending att.attestingIndices = true ∧
       hasAdjacentDuplicate att.attestingIndices = false ∧
       xs = att.attestingIndices) := by
  unfold ValidateIndexedAttestationIndicesSet
  split_ifs with h1 h2 h3 h4
  · simp only [reduceCtorEq, false_iff]
    rintro ⟨c1, -, -, -, -⟩
    exact c1 h1
  · simp only [reduceCtorEq, false_iff]
    rintro ⟨-, c2, -, -, -⟩
    omega
  · simp only [reduceCtorEq, false_iff]
    rintro ⟨-, -, c3, -, -⟩
    rw [c3] at h3
    simp at h3
  · simp only [reduceCtorEq, false_iff]
    rintro ⟨-, -, -, c4, -⟩
    rw [c4] at h4
    cases h4
  · constructor
    · intro h
      injection h with h
      exact ⟨h1, by omega, by simpa using h3, by simpa using h4, h.symm⟩
    · rintro ⟨-, -, -, -, rfl⟩
      rfl

lemma noSignature_ok_iff (spec : SpecConfig) (count : Nat) (att : IndexedAttestation) :
    ValidateIndexedAttestationNoSignature spec count att = .ok () ↔
      (¬ spec.MAX_VALIDATORS_PER_COMMITTEE < att.attestingIndices.length ∧
       att.attestingIndices.length ≠ 0 ∧
       isSortedAscending att.attestingIndices = true ∧
       hasAdjacentDuplicate att.attestingIndices = false ∧
       ∀ last, att.attestingIndices.getLast? = some last → last < count) := by
  unfold ValidateIndexedAttestationNoSignature
  cases hset : ValidateIndexedAttestationIndicesSet spec att with
  | error e =>
    unfold ValidateIndexedAttestationIndicesSet at hset
    split_ifs at hset with h1 h2 h3 h4
    · simp only [reduceCtorEq, false_iff]
      rintro ⟨c1, -, -, -, -⟩
      exact c1 h1
    · simp only [reduceCtorEq, false_iff]
      rintro ⟨-, c2, -, -, -⟩
      omega
    · simp only [reduceCtorEq, false_iff]
      rintro ⟨-, -, c3, -, -⟩
      rw [c3] at h3
      simp at h3
    · simp only [reduceCtorEq, false_iff]
      rintro ⟨-, -, -, c4, -⟩
      rw [c4] at h4
      cases h4
  | ok xs =>
    obtain ⟨h1, h2, h3, h4, rfl⟩ := (indicesSet_ok_iff spec att xs).1 hset
    dsimp only
    cases hlast : att.attestingIndices.getLast? with
    | none =>
      rw [List.getLast?_eq_none_iff] at hlast
      rw [hlast] at h2
      simp at h2
    | some last =>
      dsimp only
      split_ifs with h5
      · simp only [true_iff]
        refine ⟨h1, h2, h3, h4, ?_⟩
        intro l hl
        injection hl with hl
        subst hl
        simpa [IsValidIndex] using h5
      · simp only [reduceCtorEq, false_iff]
        rintro ⟨-, -, -, -, c5⟩
        have := c5 last rfl
        simp only [IsValidIndex, decide_eq_true_eq] at h5
        exact h5 this

lemma noSignature_error_iff (spec : SpecConfig) (count : Nat) (att : IndexedAttestation) :
    (∃ e, ValidateIndexedAttestationNoSignature spec count att = .error e) ↔
      (spec.MAX_VALIDATORS_PER_COMMITTEE < att.attestingIndices.length ∨
       att.attestingIndices.length = 0 ∨
       isSortedAscending att.attestingIndices = false ∨
       hasAdjacentDuplicate att.attestingIndices = true ∨
       ∃ last, att.attestingIndices.getLast? = some last ∧ count ≤ last) := by
  have hok := noSignature_ok_iff spec count att
  constructor
  · rintro ⟨e, he⟩
    by_contra hd
    push_neg at hd
    obtain ⟨d1, d2, d3, d4, d5⟩ := hd
    have : ValidateIndexedAttestationNoSignature spec count att = .ok () := by
      refine hok.2 ⟨by omega, d2, ?_, ?_, ?_⟩
      · simpa using d3
      · simpa using d4
      · intro l hl
        exact d5 l hl
    rw [this] at he
    cases he
  · intro hd
    cases hval : ValidateIndexedAttestationNoSignature spec count att with
    | error e => exact ⟨e, rfl⟩
    | ok u =>
      exfalso
      cases u
      obtain ⟨k1, k2, k3, k4, k5⟩ := hok.1 hval
      rcases hd with h | h | h | h | ⟨l, hl, hc⟩
      · exact k1 h
      · omega
      · rw [h] at k3
        cases k3
      · rw [h] at k4
        cases k4
      · exact absurd (k5 l hl) (Nat.not_lt.2 hc)

/-- C1: `ValidateIndexedAttestationNoSignature` (built on
`ValidateIndexedAttestationIndicesSet`) errors exactly when the index
sequence exceeds `MAX_VALIDATORS_PER_COMMITTEE`, is empty, is not sorted
ascending, has two equal adjacent entries, or its last (maximum) index is
not a valid registry index; on success the index set is returned
unchanged.  `[]`, `[5,3]`, `[3,3]`, and `[1,3,5]` against a registry of
size 4 all error. -/
theorem claim1_indexed_validation :
    (∀ (spec : SpecConfig) (count : Nat) (att : IndexedAttestation),
      (∃ e, ValidateIndexedAttestationNoSignature spec count att = .error e) ↔
        (spec.MAX_VALIDATORS_PER_COMMITTEE < att.attestingIndices.length ∨
         att.attestingIndices.length = 0 ∨
         isSortedAscending att.attestingIndices = false ∨
         hasAdjacentDuplicate att.attestingIndices = true ∨
         ∃ last, att.attestingIndices.getLast? = some last ∧ count ≤ last)) ∧
    (∀ (spec : SpecConfig) (att : IndexedAttestation) (xs : List Nat),
      ValidateIndexedAttestationIndicesSet spec att = .ok xs →
        xs = att.attestingIndices) ∧
    (∃ e, ValidateIndexedAttestationNoSignature sampleSpec 4
            (mkIndexedAttestation []) = .error e) ∧
    (∃ e, ValidateIndexedAttestationNoSignature sampleSpec 4
            (mkIndexedAttestation [5, 3]) = .error e) ∧
    (∃ e, ValidateIndexedAttestationNoSignature sampleSpec 4
            (mkIndexedAttestation [3, 3]) = .error e) ∧
    (∃ e, ValidateIndexedAttestationNoSignature sampleSpec 4
            (mkIndexedAttestation [1, 3, 5]) = .error e) := by
  refine ⟨noSignature_error_iff, ?_, ?_, ?_, ?_, ?_⟩
  · intro spec att xs h
    exact ((indicesSet_ok_iff spec att xs).1 h).2.2.2.2
  all_goals exact ⟨_, rfl⟩

/-- Witness for C1: the `[1,2]` row of the validation table is accepted by
the index-set and registry-bound checks (over a registry of size 4), via
the error characterisation. -/
theorem claim1_witness :
    ¬ (∃ e, ValidateIndexedAttestationNoSignature sampleSpec 4
              (mkIndexedAttestation [1, 2]) = .error e) := by
  rw [claim1_indexed_validation.1 sampleSpec 4 (mkIndexedAttestation [1, 2])]
  decide

/-! ## The epoch statistics collector (`PrepareEpochProcess`) -/

/-- `FlatValidator`: the immutable per-transition snapshot of one
validator's registry fields. -/
structure FlatValidator where
  effectiveBalance : Nat
  slashed : Bool
  activationEligibilityEpoch : Nat
  activationEpoch : Nat
  exitEpoch : Nat
  withdrawableEpoch : Nat
deriving Repr, DecidableEq, Inhabited

/-- `IsActive`: `activation_epoch <= epoch < exit_epoch`. -/
def FlatValidator.IsActive (v : FlatValidator) (epoch : Nat) : Bool :=
  decide (v.activationEpoch ≤ epoch) && decide (epoch < v.exitEpoch)

/-! Modelled from the spec: the `AttesterFlag` bitset
`{UnslashedAttester, EligibleAttester, Prev/CurrSource/Target/HeadAttester}`
(the flag-constant declarations are in a file not present under src/;
only the distinctness of the bits matters to the verified code). -/

def PrevSourceAttester : Nat := 1
def PrevTargetAttester : Nat := 2
def PrevHeadAttester : Nat := 4
def CurrSourceAttester : Nat := 8
def CurrTargetAttester : Nat := 16
def CurrHeadAttester : Nat := 32
def UnslashedAttester : Nat := 64
def EligibleAttester : Nat := 128

/-- `flags.HasMarkers(markers)`: `flags & markers == markers`. -/
def HasMarkers (flags markers : Nat) : Bool :=
  flags &&& markers == markers

/-- `AttesterStatus`: per-validator transient classification for one
transition. -/
structure AttesterStatus where
  flags : Nat
  validator : FlatValidator
  attestedProposer : Nat
  inclusionDelay : Nat
  active : Bool
deriving Repr, DecidableEq, Inhabited

/-- A pending-attestation record as read by pass 2. -/
structure PendingAttestation where
  aggregationBits : List Bool
  data : AttestationData
  inclusionDelay : Nat
  proposerIndex : Nat
deriving Repr, DecidableEq

/-- The parts of the `EpochsContext` consumed by the verified code: the
two epochs and the committee resolver `(slot, committee index) ->
validator indices`. -/
structure EpochsContextModel where
  prevEpoch : Nat
  currEpoch : Nat
  committee : Nat → Nat → List Nat

/-- The state accessors consumed by the verified code: the validator
registry, the block-root-at-slot accessor, the two pending-attestation
lists, and the finalized epoch. -/
structure StateModel where
  validators : List FlatValidator
  blockRootAtSlot : Nat → Nat
  prevAttestations : List PendingAttestation
  currAttestations : List PendingAttestation
  finalizedEpoch : Nat

/-- The only failure of the pure model: cooperative cancellation
(`TransitionCancelErr`). -/
inductive TransitionErr where
  | transitionCancel
deriving Repr, DecidableEq

def TransitionCancelErr : TransitionErr := .transitionCancel

/-- `n` consecutive polls of the cancellation signal, reading the stream
positions `start, start+1, ...`; aborts with `TransitionCancelErr` at the
first poll that observes the signal, otherwise returns the next unread
position. -/
def runPolls (ctx : Nat → Bool) (start : Nat) : Nat → Except TransitionErr Nat
  | 0 => .ok start
  | n + 1 =>
    if ctx start then .error TransitionCancelErr
    else runPolls ctx (start + 1) n

/-- Pass 1 polls the signal at every validator index divisible by 1024
(`i&((1<<10)-1) == 0`), including the final iterator-exhaustion round. -/
def pass1PollCount (validatorCount : Nat) : Nat := validatorCount / 1024 + 1

/-- Pass 2 polls the signal before every 32nd attestation
(`i&((1<<5)-1) == 0`), including the final iterator-exhaustion round. -/
def attPollCount (attestationCount : Nat) : Nat := attestationCount / 32 + 1

def totalPollCount (st : StateModel) : Nat :=
  pass1PollCount st.validators.length + attPollCount st.prevAttestations.length +
    attPollCount st.currAttestations.length

/-- The pass-1 per-validator status (src/unnamed/part_001, lines 96-116):
the snapshot, the `UnslashedAttester` and `EligibleAttester` flags, and
the current-epoch activity bit. -/
def status1 (prevEpoch currentEpoch : Nat) (flat : FlatValidator) : AttesterStatus :=
  let flags0 : Nat := 0
  let flags1 := if flat.slashed then flags0 else flags0 ||| UnslashedAttester
  let flags2 :=
    if flat.IsActive prevEpoch || (flat.slashed && decide (prevEpoch + 1 < flat.withdrawableEpoch))
    then flags1 ||| EligibleAttester else flags1
  { flags := flags2
    validator := flat
    attestedProposer := ValidatorIndexMarker
    inclusionDelay := 0
    active := flat.IsActive currentEpoch }

def pass1Statuses (epc : EpochsContextModel) (st : StateModel) : List AttesterStatus :=
  st.validators.map (status1 epc.prevEpoch epc.currEpoch)

/-- The indices (in ascending order, as pass 1 appends them) whose
snapshot satisfies a predicate: the common shape of the four pass-1
queues. -/
def queueFilter (p : FlatValidator → Bool) (vals : List FlatValidator) : List Nat :=
  (List.range vals.length).filter fun i =>
    match vals[i]? with
    | some v => p v
    | none => false

def slashingsEpochOf (spec : SpecConfig) (epc : EpochsContextModel) : Nat :=
  epc.currEpoch + spec.EPOCHS_PER_SLASHINGS_VECTOR / 2

/-- `IndicesToSlash` (src/unnamed/part_001, lines 100-103). -/
def indicesToSlashOf (spec : SpecConfig) (epc : EpochsContextModel) (st : StateModel) :
    List Nat :=
  queueFilter
    (fun v => v.slashed && (slashingsEpochOf spec epc == v.withdrawableEpoch))
    st.validators

/-- `IndicesToSetActivationEligibility` (src/unnamed/part_001, lines 118-120). -/
def indicesToSetActivationEligibilityOf (spec : SpecConfig) (st : StateModel) :
    List Nat :=
  queueFilter
    (fun v => v.activationEligibilityEpoch == FAR_FUTURE_EPOCH &&
      v.effectiveBalance == spec.MAX_EFFECTIVE_BALANCE)
    st.validators

/-- The unsorted maybe-activate candidates (src/unnamed/part_001, lines
122-124). -/
def maybeActivateCandidates (epc : EpochsContextModel) (st : StateModel) :
    List Nat :=
  queueFilter
    (fun v => v.activationEpoch == FAR_FUTURE_EPOCH &&
      decide (v.activationEligibilityEpoch ≤ epc.currEpoch))
    st.validators

/-- `IndicesToEject` (src/unnamed/part_001, lines 126-128). -/
def indicesToEjectOf (spec : SpecConfig) (epc : EpochsContextModel) (st : StateModel) :
    List Nat :=
  queueFilter
    (fun v => v.IsActive epc.currEpoch &&
      decide (v.effectiveBalance ≤ spec.EJECTION_BALANCE) &&
      (v.exitEpoch == FAR_FUTURE_EPOCH))
    st.validators

/-- The eligibility epoch recorded in a status list for a validator index
(the sort key read by the maybe-activate comparison). -/
def statusEligibility (statuses : List AttesterStatus) (i : Nat) : Nat :=
  match statuses[i]? with
  | some s => s.validator.activationEligibilityEpoch
  | none => 0

/-- The maybe-activate ordering (src/unnamed/part_001, lines 132-141):
ascending by `(activation_eligibility_epoch, validator index)`.  This is
the reflexive closure of the strict `sort.Slice` comparison; on the
duplicate-free queue any correct sort produces the same unique strictly
ordered output. -/
def maybeActivateLe (statuses : List AttesterStatus) (a b : Nat) : Prop :=
  statusEligibility statuses a < statusEligibility statuses b ∨
    (statusEligibility statuses a = statusEligibility statuses b ∧ a ≤ b)

instance (statuses : List AttesterStatus) : DecidableRel (maybeActivateLe statuses) :=
  fun a b => by
    unfold maybeActivateLe
    exact inferInstance

instance (statuses : List AttesterStatus) : IsTotal Nat (maybeActivateLe statuses) where
  total a b := by
    unfold maybeActivateLe
    rcases Nat.lt_trichotomy (statusEligibility statuses a) (statusEligibility statuses b) with h | h | h
    · exact Or.inl (Or.inl h)
    · rcases Nat.le_total a b with hab | hab
      · exact Or.inl (Or.inr ⟨h, hab⟩)
      · exact Or.inr (Or.inr ⟨h.symm, hab⟩)
    · exact Or.inr (Or.inl h)

instance (statuses : List AttesterStatus) : IsTrans Nat (maybeActivateLe statuses) where
  trans a b c hab hbc := by
    unfold maybeActivateLe at *
    rcases hab with h1 | ⟨h1, h1i⟩ <;> rcases hbc with h2 | ⟨h2, h2i⟩
    · exact Or.inl (h1.trans h2)
    · exact Or.inl (h2 ▸ h1)
    · exact Or.inl (h1 ▸ h2)
    · exact Or.inr ⟨h1.trans h2, h1i.trans h2i⟩

/-- `IndicesToMaybeActivate` (src/unnamed/part_001, lines 122-141): the
candidate indices sorted ascending by `(eligibility epoch, index)`. -/
def indicesToMaybeActivateOf (epc : EpochsContextModel) (st : StateModel) :
    List Nat :=
  List.insertionSort (maybeActivateLe (pass1Statuses epc st))
    (maybeActivateCandidates epc st)

def exitQueueEndBase (spec : SpecConfig) (epc : EpochsContextModel) : Nat :=
  ComputeActivationExitEpoch spec epc.currEpoch

/-- The scan counting validators already exiting at the initial queue-end
epoch (src/unnamed/part_001, lines 143-149); `pass1Statuses` carries the
registry snapshot, so this is a count over the registry. -/
def exitQueueChurnCount (spec : SpecConfig) (epc : EpochsContextModel) (st : StateModel) : Nat :=
  (pass1Statuses epc st).countP
    (fun s => s.validator.exitEpoch == exitQueueEndBase spec epc)

def activeCountOf (epc : EpochsContextModel) (st : StateModel) : Nat :=
  st.validators.countP (fun v => v.IsActive epc.currEpoch)

def churnLimitOf (spec : SpecConfig) (epc : EpochsContextModel) (st : StateModel) : Nat :=
  GetChurnLimit spec (activeCountOf epc st)

def totalActiveStakeRaw (epc : EpochsContextModel) (st : StateModel) : Nat :=
  st.validators.foldl
    (fun acc v => if v.IsActive epc.currEpoch then acc + v.effectiveBalance else acc) 0

/-- Modelled from the spec: `EpochStartSlot` (the first slot of an epoch);
the function body is not under src/ and the verified code only feeds its
result to the opaque block-root accessor. -/
def EpochStartSlot (spec : SpecConfig) (epoch : Nat) : Nat :=
  epoch * spec.SLOTS_PER_EPOCH

/-- Modelled from the spec: `AggregationBits.FilterParticipants` ("filter
to indices actually marked in the aggregation bitfield"); the bitfield
methods are not under src/.  Keeps `committee[i]` for every set bit `i`. -/
def FilterParticipants (bits : List Bool) (committee : List Nat) :
    List Nat :=
  (committee.zip bits).filterMap fun p => if p.2 then some p.1 else none

/-- Functional update of the status at one index; Go mutates
`out.Statuses[p]` in place (a resolver-provided participant index is
always in range; out-of-range is a no-op here). -/
def modifyStatus (f : AttesterStatus → AttesterStatus) :
    List AttesterStatus → Nat → List AttesterStatus
  | [], _ => []
  | s :: rest, 0 => f s :: rest
  | s :: rest, n + 1 => s :: modifyStatus f rest n

/-- The earliest-inclusion update of the previous-epoch pass
(src/unnamed/part_001, lines 216-226). -/
def earliestInclusionUpdate (att : PendingAttestation) (s : AttesterStatus) : AttesterStatus :=
  if s.attestedProposer == ValidatorIndexMarker || decide (att.inclusionDelay < s.inclusionDelay)
  then { s with inclusionDelay := att.inclusionDelay, attestedProposer := att.proposerIndex }
  else s

/-- The flag update of pass 2 (src/unnamed/part_001, lines 228-243): OR
the source flag; if the target root matches the boundary root, also OR
the target flag, and if additionally the head root matches the block root
at the attestation slot, OR the head flag. -/
def orFlagsUpdate (sourceFlag targetFlag headFlag : Nat) (targetMatch headMatch : Bool)
    (s : AttesterStatus) : AttesterStatus :=
  let f0 := s.flags ||| sourceFlag
  let f1 :=
    if targetMatch then
      if headMatch then (f0 ||| targetFlag) ||| headFlag else f0 ||| targetFlag
    else f0
  { s with flags := f1 }

/-- Processing of one pending attestation (the body of the `processEpoch`
closure, src/unnamed/part_001, lines 185-245). -/
def processAttestation (epc : EpochsContextModel) (blockRootAtSlot : Nat → Nat)
    (prevEpoch epoch : Nat) (sourceFlag targetFlag headFlag : Nat)
    (actualTargetBlockRoot : Nat) (statuses : List AttesterStatus)
    (att : PendingAttestation) : List AttesterStatus :=
  let attBlockRoot := blockRootAtSlot att.data.slot
  let committee := epc.committee att.data.slot att.data.index
  let participants := FilterParticipants att.aggregationBits committee
  let statuses1 :=
    if epoch == prevEpoch then
      participants.foldl (modifyStatus (earliestInclusionUpdate att)) statuses
    else statuses
  participants.foldl
    (modifyStatus (orFlagsUpdate sourceFlag targetFlag headFlag
      (att.data.target.root == actualTargetBlockRoot)
      (att.data.beaconBlockRoot == attBlockRoot)))
    statuses1

/-- One pass-2 iteration (`processEpoch`, src/unnamed/part_001, lines
159-247), cancellation polls factored out. -/
def processEpochAtts (spec : SpecConfig) (epc : EpochsContextModel) (st : StateModel)
    (epoch : Nat) (sourceFlag targetFlag headFlag : Nat)
    (atts : List PendingAttestation) (statuses : List AttesterStatus) :
    List AttesterStatus :=
  let actualTargetBlockRoot := st.blockRootAtSlot (EpochStartSlot spec epoch)
  atts.foldl
    (processAttestation epc st.blockRootAtSlot epc.prevEpoch epoch
      sourceFlag targetFlag headFlag actualTargetBlockRoot)
    statuses

/-- The final statuses: pass-1 snapshot statuses, then the
previous-epoch and current-epoch attestation passes. -/
def finalStatuses (spec : SpecConfig) (epc : EpochsContextModel) (st : StateModel) :
    List AttesterStatus :=
  processEpochAtts spec epc st epc.currEpoch
    CurrSourceAttester CurrTargetAttester CurrHeadAttester st.currAttestations
    (processEpochAtts spec epc st epc.prevEpoch
      PrevSourceAttester PrevTargetAttester PrevHeadAttester st.prevAttestations
      (pass1Statuses epc st))

/-- The stake-summation loop shape (src/unnamed/part_001, lines 265-281). -/
def sumEffectiveWhere (p : AttesterStatus → Bool) (statuses : List AttesterStatus) : Nat :=
  statuses.foldl (fun acc s => if p s then acc + s.validator.effectiveBalance else acc) 0

def prevSourceP (s : AttesterStatus) : Bool :=
  HasMarkers s.flags (PrevSourceAttester ||| UnslashedAttester)

def prevTargetP (s : AttesterStatus) : Bool :=
  prevSourceP s && HasMarkers s.flags PrevTargetAttester

def prevHeadP (s : AttesterStatus) : Bool :=
  prevTargetP s && HasMarkers s.flags PrevHeadAttester

def currTargetP (s : AttesterStatus) : Bool :=
  HasMarkers s.flags (CurrTargetAttester ||| UnslashedAttester)

/-- The stake floor (src/unnamed/part_001, lines 282-296): raise a total
below one effective-balance increment to the increment. -/
def clampToIncrement (spec : SpecConfig) (x : Nat) : Nat :=
  if x < spec.EFFECTIVE_BALANCE_INCREMENT then spec.EFFECTIVE_BALANCE_INCREMENT else x

structure EpochStakeSummary where
  SourceStake : Nat
  TargetStake : Nat
  HeadStake : Nat
deriving Repr, DecidableEq

/-- `EpochProcess` (src/unnamed/part_001, lines 15-40). -/
structure EpochProcess where
  PrevEpoch : Nat
  CurrEpoch : Nat
  Statuses : List AttesterStatus
  TotalActiveStake : Nat
  PrevEpochUnslashedStake : EpochStakeSummary
  CurrEpochUnslashedTargetStake : Nat
  ActiveValidators : Nat
  IndicesToSlash : List Nat
  IndicesToSetActivationEligibility : List Nat
  IndicesToMaybeActivate : List Nat
  IndicesToEject : List Nat
  ExitQueueEnd : Nat
  ExitQueueEndChurn : Nat
  ChurnLimit : Nat
deriving Repr, DecidableEq

/-- The (cancellation-free) result of `PrepareEpochProcess`. -/
def prepareOutcome (spec : SpecConfig) (epc : EpochsContextModel) (st : StateModel) :
    EpochProcess :=
  let statuses := finalStatuses spec epc st
  let churnCount := exitQueueChurnCount spec epc st
  let churnLimit := churnLimitOf spec epc st
  { PrevEpoch := epc.prevEpoch
    CurrEpoch := epc.currEpoch
    Statuses := statuses
    TotalActiveStake := clampToIncrement spec (totalActiveStakeRaw epc st)
    PrevEpochUnslashedStake :=
      { SourceStake := clampToIncrement spec (sumEffectiveWhere prevSourceP statuses)
        TargetStake := clampToIncrement spec (sumEffectiveWhere prevTargetP statuses)
        HeadStake := clampToIncrement spec (sumEffectiveWhere prevHeadP statuses) }
    CurrEpochUnslashedTargetStake :=
      clampToIncrement spec (sumEffectiveWhere currTargetP statuses)
    ActiveValidators := activeCountOf epc st
    IndicesToSlash := indicesToSlashOf spec epc st
    IndicesToSetActivationEligibility := indicesToSetActivationEligibilityOf spec st
    IndicesToMaybeActivate := indicesToMaybeActivateOf epc st
    IndicesToEject := indicesToEjectOf spec epc st
    ExitQueueEnd :=
      if churnLimit ≤ churnCount then exitQueueEndBase spec epc + 1
      else exitQueueEndBase spec epc
    ExitQueueEndChurn := if churnLimit ≤ churnCount then 0 else churnCount
    ChurnLimit := churnLimit }

/-- `PrepareEpochProcess` (src/unnamed/part_001, lines 46-299).  The
cancellation polls of the three loops are run in source order against the
poll stream; the pure computation between polls cannot affect the stream,
so it is gathered into `prepareOutcome`.  On cancellation the partial
result is discarded: the error carries no `EpochProcess`. -/
def PrepareEpochProcess (ctx : Nat → Bool) (spec : SpecConfig) (epc : EpochsContextModel)
    (st : StateModel) : Except TransitionErr EpochProcess :=
  match runPolls ctx 0 (pass1PollCount st.validators.length) with
  | .error e => .error e
  | .ok polls1 =>
    match runPolls ctx polls1 (attPollCount st.prevAttestations.length) with
    | .error e => .error e
    | .ok polls2 =>
      match runPolls ctx polls2 (attPollCount st.currAttestations.length) with
      | .error e => .error e
      | .ok _ => .ok (prepareOutcome spec epc st)

/-! ## The registry churn manager (`ProcessEpochRegistryUpdates`) and
`InitiateValidatorExit` -/

/-- Functional update of the registry entry at one index; Go writes the
field through `vals.Validator(index)` (a collector-provided index is
always in range; out-of-range is a no-op here). -/
def modifyVal (f : FlatValidator → FlatValidator) :
    List FlatValidator → Nat → List FlatValidator
  | [], _ => []
  | v :: rest, 0 => f v :: rest
  | v :: rest, n + 1 => v :: modifyVal f rest n

/-- The ejection pass (src/eth2/beacon/registry.go, lines 74-95): walk the
to-eject list in order, assign the running queue-end epoch as exit epoch
and `end + MIN_VALIDATOR_WITHDRAWABILITY_DELAY` as withdrawable epoch,
increment the churn counter, and on reaching the churn limit reset it and
advance the queue-end epoch. -/
def processEjections (withdrawabilityDelay : Nat) (churnLimit : Nat) :
    List FlatValidator → List Nat → Nat → Nat → List FlatValidator
  | registry, [], _, _ => registry
  | registry, index :: rest, exitEnd, endChurn =>
    let registry1 := modifyVal
      (fun v => { v with exitEpoch := exitEnd,
                         withdrawableEpoch := exitEnd + withdrawabilityDelay })
      registry index
    if churnLimit ≤ endChurn + 1 then
      processEjections withdrawabilityDelay churnLimit registry1 rest (exitEnd + 1) 0
    else
      processEjections withdrawabilityDelay churnLimit registry1 rest exitEnd (endChurn + 1)

/-- The eligibility pass (src/eth2/beacon/registry.go, lines 97-109):
every queued index receives `activation_eligibility_epoch =
current_epoch + 1`. -/
def processEligibility (eligibilityEpoch : Nat) (registry : List FlatValidator)
    (queue : List Nat) : List FlatValidator :=
  queue.foldl
    (modifyVal (fun v => { v with activationEligibilityEpoch := eligibilityEpoch }))
    registry

/-- The activation walk (src/eth2/beacon/registry.go, lines 125-138):
process the dequeued prefix in order, breaking at the first candidate
whose snapshot eligibility epoch exceeds the finalized epoch, and set the
activation epoch of every candidate before the break. -/
def processActivationsWalk (statuses : List AttesterStatus)
    (finalizedEpoch activationEpoch : Nat) :
    List FlatValidator → List Nat → List FlatValidator
  | registry, [] => registry
  | registry, index :: rest =>
    if finalizedEpoch < statusEligibility statuses index then registry
    else
      processActivationsWalk statuses finalizedEpoch activationEpoch
        (modifyVal (fun v => { v with activationEpoch := activationEpoch }) registry index)
        rest

/-- The activation pass (src/eth2/beacon/registry.go, lines 110-139):
truncate the sorted maybe-activate queue to the churn limit and walk it. -/
def processActivationsPass (process : EpochProcess) (finalizedEpoch activationEpoch : Nat)
    (registry : List FlatValidator) : List FlatValidator :=
  let dequeued :=
    if process.ChurnLimit < process.IndicesToMaybeActivate.length then
      process.IndicesToMaybeActivate.take process.ChurnLimit
    else process.IndicesToMaybeActivate
  processActivationsWalk process.Statuses finalizedEpoch activationEpoch registry dequeued

/-- `ProcessEpochRegistryUpdates` (src/eth2/beacon/registry.go, lines
63-141): one cancellation poll, then ejections, eligibility and
activations over the mutable registry. -/
def ProcessEpochRegistryUpdates (ctxDone : Bool) (spec : SpecConfig)
    (epc : EpochsContextModel) (process : EpochProcess) (registry : List FlatValidator)
    (finalizedEpoch : Nat) : Except TransitionErr (List FlatValidator) :=
  if ctxDone then .error TransitionCancelErr
  else
    let afterEjections := processEjections spec.MIN_VALIDATOR_WITHDRAWABILITY_DELAY
      process.ChurnLimit registry process.IndicesToEject
      process.ExitQueueEnd process.ExitQueueEndChurn
    let afterEligibility := processEligibility (epc.currEpoch + 1) afterEjections
      process.IndicesToSetActivationEligibility
    .ok (processActivationsPass process finalizedEpoch
      (ComputeActivationExitEpoch spec epc.currEpoch) afterEligibility)

/-- `InitiateValidatorExit` (src/eth2/forkchoice/proto/fork_choice.go,
lines 208-271 of the concatenated file): return unchanged when the
validator's exit epoch is already set, otherwise scan the registry for
the latest exit-queue end, apply churn, and assign exit and withdrawable
epochs. -/
def InitiateValidatorExit (spec : SpecConfig) (currentEpoch : Nat)
    (activeIndicesCount : Nat) (registry : List FlatValidator)
    (index : Nat) : Except String (List FlatValidator) :=
  match registry[index]? with
  | none => .error "invalid validator index"
  | some v =>
    if v.exitEpoch ≠ FAR_FUTURE_EPOCH then .ok registry
    else
      let scan := registry.foldl
        (fun (acc : Nat × Nat) val =>
          if val.exitEpoch = FAR_FUTURE_EPOCH then acc
          else if val.exitEpoch = acc.1 then (acc.1, acc.2 + 1)
          else if acc.1 < val.exitEpoch then (val.exitEpoch, 1)
          else acc)
        (ComputeActivationExitEpoch spec currentEpoch, 0)
      let churnLimit := GetChurnLimit spec activeIndicesCount
      let exitQueueEnd := if churnLimit ≤ scan.2 then scan.1 + 1 else scan.1
      .ok (modifyVal
        (fun w => { w with exitEpoch := exitQueueEnd,
                           withdrawableEpoch :=
                             exitQueueEnd + spec.MIN_VALIDATOR_WITHDRAWABILITY_DELAY })
        registry index)

/-! ## Basic lemmas about the embedding -/

lemma runPolls_ok_elim (ctx : Nat → Bool) :
    ∀ (n start m : Nat), runPolls ctx start n = .ok m →
      m = start + n ∧ ∀ k, k < n → ctx (start + k) = false := by
  intro n
  induction n with
  | zero =>
    intro start m h
    unfold runPolls at h
    injection h with h
    exact ⟨by omega, fun k hk => absurd hk (by omega)⟩
  | succ n ih =>
    intro start m h
    unfold runPolls at h
    by_cases hc : ctx start
    · rw [if_pos hc] at h
      exact Except.noConfusion h
    · rw [if_neg hc] at h
      obtain ⟨hm, hall⟩ := ih (start + 1) m h
      refine ⟨by omega, fun k hk => ?_⟩
      cases k with
      | zero => simpa using hc
      | succ k =>
        have := hall k (by omega)
        simpa [Nat.add_assoc, Nat.add_comm 1 k] using this

lemma runPolls_error_iff (ctx : Nat → Bool) :
    ∀ (n start : Nat), runPolls ctx start n = .error TransitionCancelErr ↔
      ∃ k, k < n ∧ ctx (start + k) = true := by
  intro n
  induction n with
  | zero =>
    intro start
    unfold runPolls
    simp
  | succ n ih =>
    intro start
    unfold runPolls
    by_cases hc : ctx start
    · rw [if_pos hc]
      simp only [true_iff]
      exact ⟨0, by omega, by simpa using hc⟩
    · rw [if_neg hc]
      rw [ih (start + 1)]
      constructor
      · rintro ⟨k, hk, h⟩
        exact ⟨k + 1, by omega, by rw [show start + (k + 1) = start + 1 + k by omega]; exact h⟩
      · rintro ⟨k, hk, h⟩
        cases k with
        | zero => rw [Nat.add_zero] at h; rw [h] at hc; cases hc rfl
        | succ k =>
          exact ⟨k, by omega, by rw [show start + 1 + k = start + (k + 1) by omega]; exact h⟩

lemma runPolls_cases (ctx : Nat → Bool) (n start : Nat) :
    runPolls ctx start n = .error TransitionCancelErr ∨
      runPolls ctx start n = .ok (start + n) := by
  cases h : runPolls ctx start n with
  | error e =>
    cases e
    exact Or.inl rfl
  | ok m =>
    right
    rw [(runPolls_ok_elim ctx n start m h).1]

/-- The only `ok` result of `PrepareEpochProcess` is `prepareOutcome`. -/
lemma prepare_ok_elim (ctx : Nat → Bool) (spec : SpecConfig) (epc : EpochsContextModel)
    (st : StateModel) (ep : EpochProcess)
    (h : PrepareEpochProcess ctx spec epc st = .ok ep) :
    ep = prepareOutcome spec epc st := by
  unfold PrepareEpochProcess at h
  split at h
  · exact Except.noConfusion h
  · split at h
    · exact Except.noConfusion h
    · split at h
      · exact Except.noConfusion h
      · injection h with h
        exact h.symm

/-- C3: every stake total of a successfully prepared `EpochProcess` is at
least one effective-balance increment, whatever the input state (in
particular with no attesters at all). -/
theorem claim3_stake_floor (ctx : Nat → Bool) (spec : SpecConfig) (epc : EpochsContextModel)
    (st : StateModel) (ep : EpochProcess)
    (h : PrepareEpochProcess ctx spec epc st = .ok ep) :
    spec.EFFECTIVE_BALANCE_INCREMENT ≤ ep.TotalActiveStake ∧
    spec.EFFECTIVE_BALANCE_INCREMENT ≤ ep.PrevEpochUnslashedStake.SourceStake ∧
    spec.EFFECTIVE_BALANCE_INCREMENT ≤ ep.PrevEpochUnslashedStake.TargetStake ∧
    spec.EFFECTIVE_BALANCE_INCREMENT ≤ ep.PrevEpochUnslashedStake.HeadStake ∧
    spec.EFFECTIVE_BALANCE_INCREMENT ≤ ep.CurrEpochUnslashedTargetStake := by
  have hclamp : ∀ x, spec.EFFECTIVE_BALANCE_INCREMENT ≤ clampToIncrement spec x := by
    intro x
    unfold clampToIncrement
    by_cases hx : x < spec.EFFECTIVE_BALANCE_INCREMENT
    · rw [if_pos hx]
    · rw [if_neg hx]
      exact Nat.le_of_not_lt hx
  rw [prepare_ok_elim ctx spec epc st ep h]
  exact ⟨hclamp _, hclamp _, hclamp _, hclamp _, hclamp _⟩

/-- A trivial state and context used to exercise the collector on a
concrete input. -/
def emptyState : StateModel where
  validators := []
  blockRootAtSlot := fun _ => 0
  prevAttestations := []
  currAttestations := []
  finalizedEpoch := 0

def sampleEpc : EpochsContextModel where
  prevEpoch := 0
  currEpoch := 1
  committee := fun _ _ => []

/-- Witness for C3: on the empty registry with no attestations the
prepared process exists and all five totals sit exactly at the floor. -/
theorem claim3_witness :
    sampleSpec.EFFECTIVE_BALANCE_INCREMENT ≤
      (prepareOutcome sampleSpec sampleEpc emptyState).TotalActiveStake ∧
    sampleSpec.EFFECTIVE_BALANCE_INCREMENT ≤
      (prepareOutcome sampleSpec sampleEpc emptyState).PrevEpochUnslashedStake.SourceStake ∧
    sampleSpec.EFFECTIVE_BALANCE_INCREMENT ≤
      (prepareOutcome sampleSpec sampleEpc emptyState).PrevEpochUnslashedStake.TargetStake ∧
    sampleSpec.EFFECTIVE_BALANCE_INCREMENT ≤
      (prepareOutcome sampleSpec sampleEpc emptyState).PrevEpochUnslashedStake.HeadStake ∧
    sampleSpec.EFFECTIVE_BALANCE_INCREMENT ≤
      (prepareOutcome sampleSpec sampleEpc emptyState).CurrEpochUnslashedTargetStake :=
  claim3_stake_floor (fun _ => false) sampleSpec sampleEpc emptyState
    (prepareOutcome sampleSpec sampleEpc emptyState) rfl

/-- C8: `PrepareEpochProcess` returns the cancellation error exactly when
the cancellation signal is set at one of its polls; the polls read the
stream positions `0, ..., totalPollCount st - 1`, i.e. one poll per
validator index divisible by 1024 in pass 1 (plus the final iterator
round) and one per 32 attestations in each pass-2 iteration (plus the
final round).  The error case carries no `EpochProcess`: the partial
result is discarded by construction of the return type. -/
theorem claim8_cancellation (ctx : Nat → Bool) (spec : SpecConfig)
    (epc : EpochsContextModel) (st : StateModel) :
    PrepareEpochProcess ctx spec epc st = .error TransitionCancelErr ↔
      ∃ k, k < totalPollCount st ∧ ctx k = true := by
  unfold PrepareEpochProcess totalPollCount
  rcases runPolls_cases ctx (pass1PollCount st.validators.length) 0 with h1 | h1
  · obtain ⟨k, hk, hctx⟩ :=
      (runPolls_error_iff ctx (pass1PollCount st.validators.length) 0).1 h1
    rw [h1]
    dsimp only
    constructor
    · intro _
      exact ⟨k, by omega, by simpa using hctx⟩
    · intro _
      rfl
  · obtain ⟨-, hall1⟩ :=
      runPolls_ok_elim ctx (pass1PollCount st.validators.length) 0 _ h1
    rw [h1]
    dsimp only
    rcases runPolls_cases ctx (attPollCount st.prevAttestations.length)
        (0 + pass1PollCount st.validators.length) with h2 | h2
    · obtain ⟨k, hk, hctx⟩ :=
        (runPolls_error_iff ctx (attPollCount st.prevAttestations.length)
          (0 + pass1PollCount st.validators.length)).1 h2
      rw [h2]
      dsimp only
      constructor
      · intro _
        exact ⟨0 + pass1PollCount st.validators.length + k, by omega, hctx⟩
      · intro _
        rfl
    · obtain ⟨-, hall2⟩ :=
        runPolls_ok_elim ctx (attPollCount st.prevAttestations.length)
          (0 + pass1PollCount st.validators.length) _ h2
      rw [h2]
      dsimp only
      rcases runPolls_cases ctx (attPollCount st.currAttestations.length)
          (0 + pass1PollCount st.validators.length +
            attPollCount st.prevAttestations.length) with h3 | h3
      · obtain ⟨k, hk, hctx⟩ :=
          (runPolls_error_iff ctx (attPollCount st.currAttestations.length)
            (0 + pass1PollCount st.validators.length +
              attPollCount st.prevAttestations.length)).1 h3
        rw [h3]
        dsimp only
        constructor
        · intro _
          exact ⟨0 + pass1PollCount st.validators.length +
            attPollCount st.prevAttestations.length + k, by omega, hctx⟩
        · intro _
          rfl
      · obtain ⟨-, hall3⟩ :=
          runPolls_ok_elim ctx (attPollCount st.currAttestations.length)
            (0 + pass1PollCount st.validators.length +
              attPollCount st.prevAttestations.length) _ h3
        rw [h3]
        dsimp only
        constructor
        · intro hcon
          exact Except.noConfusion hcon
        · rintro ⟨k, hk, hck⟩
          exfalso
          by_cases hk1 : k < pass1PollCount st.validators.length
          · have := hall1 k hk1
            rw [Nat.zero_add] at this
            rw [this] at hck
            cases hck
          · by_cases hk2 : k < pass1PollCount st.validators.length +
                attPollCount st.prevAttestations.length
            · have := hall2 (k - pass1PollCount st.validators.length) (by omega)
              rw [show 0 + pass1PollCount st.validators.length +
                  (k - pass1PollCount st.validators.length) = k by omega] at this
              rw [this] at hck
              cases hck
            · have := hall3 (k - pass1PollCount st.validators.length -
                attPollCount st.prevAttestations.length) (by omega)
              rw [show 0 + pass1PollCount st.validators.length +
                  attPollCount st.prevAttestations.length +
                  (k - pass1PollCount st.validators.length -
                    attPollCount st.prevAttestations.length) = k by omega] at this
              rw [this] at hck
              cases hck

lemma countP_eq_of_forall2 {α β : Type} (R : α → β → Prop) (p : α → Bool) (q : β → Bool)
    (l1 : List α) (l2 : List β) (h : List.Forall₂ R l1 l2)
    (hpq : ∀ a b, R a b → p a = q b) : l1.countP p = l2.countP q := by
  induction h with
  | nil => rfl
  | cons hr _ ih => simp [List.countP_cons, ih, hpq _ _ hr]

lemma exitQueueChurnCount_eq (spec : SpecConfig) (epc : EpochsContextModel) (st : StateModel) :
    exitQueueChurnCount spec epc st =
      st.validators.countP (fun v => v.exitEpoch == exitQueueEndBase spec epc) := by
  unfold exitQueueChurnCount pass1Statuses
  rw [List.countP_map]
  rfl

/-- The relation of C10's invariance clause: equal snapshots, except that
the exit epoch may differ as long as it stays strictly beyond the initial
exit-queue epoch on both sides. -/
def ExitLaterRel (base : Nat) (v w : FlatValidator) : Prop :=
  v = w ∨ (base < v.exitEpoch ∧ base < w.exitEpoch ∧ w = { v with exitEpoch := w.exitEpoch })

/-- C10: the exit-queue cursor of a prepared `EpochProcess` is a function
of the count of validators whose exit epoch equals
`ComputeActivationExitEpoch(current_epoch)` alone: below the churn limit
the cursor is `(that epoch, count)`, otherwise `(epoch+1, 0)`; and states
whose registries differ only in exit epochs strictly beyond that epoch
(with the current epoch's activity unaffected) produce the same cursor. -/
theorem claim10_exit_cursor (ctx : Nat → Bool) (spec : SpecConfig) (epc : EpochsContextModel)
    (st : StateModel) (ep : EpochProcess)
    (h : PrepareEpochProcess ctx spec epc st = .ok ep) :
    ((churnLimitOf spec epc st ≤
        st.validators.countP
          (fun v => v.exitEpoch == ComputeActivationExitEpoch spec epc.currEpoch) →
      ep.ExitQueueEnd = ComputeActivationExitEpoch spec epc.currEpoch + 1 ∧
      ep.ExitQueueEndChurn = 0) ∧
     (st.validators.countP
          (fun v => v.exitEpoch == ComputeActivationExitEpoch spec epc.currEpoch) <
        churnLimitOf spec epc st →
      ep.ExitQueueEnd = ComputeActivationExitEpoch spec epc.currEpoch ∧
      ep.ExitQueueEndChurn =
        st.validators.countP
          (fun v => v.exitEpoch == ComputeActivationExitEpoch spec epc.currEpoch))) ∧
    (∀ (ctx2 : Nat → Bool) (st2 : StateModel) (ep2 : EpochProcess),
      PrepareEpochProcess ctx2 spec epc st2 = .ok ep2 →
      List.Forall₂ (ExitLaterRel (ComputeActivationExitEpoch spec epc.currEpoch))
        st.validators st2.validators →
      ep2.ExitQueueEnd = ep.ExitQueueEnd ∧ ep2.ExitQueueEndChurn = ep.ExitQueueEndChurn) := by
  have hcurr_lt : epc.currEpoch < ComputeActivationExitEpoch spec epc.currEpoch := by
    unfold ComputeActivationExitEpoch
    exact Nat.lt_add_right _ (Nat.lt_succ_self _)
  -- the cursor of any prepared outcome, as a function of the count
  have cursor_of : ∀ (stx : StateModel),
      (prepareOutcome spec epc stx).ExitQueueEnd =
        (if churnLimitOf spec epc stx ≤
            stx.validators.countP
              (fun v => v.exitEpoch == ComputeActivationExitEpoch spec epc.currEpoch)
         then ComputeActivationExitEpoch spec epc.currEpoch + 1
         else ComputeActivationExitEpoch spec epc.currEpoch) ∧
      (prepareOutcome spec epc stx).ExitQueueEndChurn =
        (if churnLimitOf spec epc stx ≤
            stx.validators.countP
              (fun v => v.exitEpoch == ComputeActivationExitEpoch spec epc.currEpoch)
         then 0
         else stx.validators.countP
              (fun v => v.exitEpoch == ComputeActivationExitEpoch spec epc.currEpoch)) := by
    intro stx
    unfold prepareOutcome
    rw [exitQueueChurnCount_eq]
    exact ⟨rfl, rfl⟩
  rw [prepare_ok_elim ctx spec epc st ep h]
  obtain ⟨hend, hchurn⟩ := cursor_of st
  refine ⟨⟨?_, ?_⟩, ?_⟩
  · intro hle
    rw [hend, hchurn, if_pos hle, if_pos hle]
    exact ⟨rfl, rfl⟩
  · intro hlt
    rw [hend, hchurn, if_neg (Nat.not_le.mpr hlt), if_neg (Nat.not_le.mpr hlt)]
    exact ⟨rfl, rfl⟩
  · intro ctx2 st2 ep2 h2 hrel
    rw [prepare_ok_elim ctx2 spec epc st2 ep2 h2]
    obtain ⟨hend2, hchurn2⟩ := cursor_of st2
    have hcount : st2.validators.countP
        (fun v => v.exitEpoch == ComputeActivationExitEpoch spec epc.currEpoch) =
        st.validators.countP
          (fun v => v.exitEpoch == ComputeActivationExitEpoch spec epc.currEpoch) := by
      refine (countP_eq_of_forall2 _ _ _ _ _ hrel ?_).symm
      rintro a b (rfl | ⟨ha, hb, -⟩)
      · rfl
      · have h1 : (a.exitEpoch == ComputeActivationExitEpoch spec epc.currEpoch) = false := by
          simp only [beq_eq_false_iff_ne, ne_eq]
          intro hc
          rw [hc] at ha
          exact Nat.lt_irrefl _ ha
        have h2 : (b.exitEpoch == ComputeActivationExitEpoch spec epc.currEpoch) = false := by
          simp only [beq_eq_false_iff_ne, ne_eq]
          intro hc
          rw [hc] at hb
          exact Nat.lt_irrefl _ hb
        rw [h1, h2]
    have hactive : activeCountOf epc st2 = activeCountOf epc st := by
      unfold activeCountOf
      refine (countP_eq_of_forall2 _ _ _ _ _ hrel ?_).symm
      rintro a b (rfl | ⟨ha, hb, hab⟩)
      · rfl
      · unfold FlatValidator.IsActive
        rw [hab]
        have h1 : decide (epc.currEpoch < a.exitEpoch) = true := by
          simp only [decide_eq_true_eq]
          exact Nat.lt_trans hcurr_lt ha
        have h2 : decide (epc.currEpoch < b.exitEpoch) = true := by
          simp only [decide_eq_true_eq]
          exact Nat.lt_trans hcurr_lt hb
        rw [h1, h2]
    have hlim : churnLimitOf spec epc st2 = churnLimitOf spec epc st := by
      unfold churnLimitOf
      rw [hactive]
    rw [hend2, hchurn2, hend, hchurn, hcount, hlim]
    exact ⟨rfl, rfl⟩

/-- A plain active validator used by the concrete registry samples. -/
def sampleValidator : FlatValidator where
  effectiveBalance := 32000000000
  slashed := false
  activationEligibilityEpoch := 0
  activationEpoch := 0
  exitEpoch := FAR_FUTURE_EPOCH
  withdrawableEpoch := FAR_FUTURE_EPOCH

/-- Registry with one validator already exiting at the initial queue-end
epoch (`ComputeActivationExitEpoch sampleSpec 1 = 6`) and one not exiting. -/
def c10State : StateModel where
  validators := [{ sampleValidator with exitEpoch := 6 }, sampleValidator]
  blockRootAtSlot := fun _ => 0
  prevAttestations := []
  currAttestations := []
  finalizedEpoch := 0

/-- Witness for C10: on `c10State` one validator exits at the initial
queue-end epoch and the churn limit is not reached, so the cursor is
`(ComputeActivationExitEpoch, 1)`. -/
theorem claim10_witness :
    (prepareOutcome sampleSpec sampleEpc c10State).ExitQueueEnd =
      ComputeActivationExitEpoch sampleSpec sampleEpc.currEpoch ∧
    (prepareOutcome sampleSpec sampleEpc c10State).ExitQueueEndChurn = 1 := by
  have h := claim10_exit_cursor (fun _ => false) sampleSpec sampleEpc c10State
    (prepareOutcome sampleSpec sampleEpc c10State) rfl
  have h2 := h.1.2 (by decide)
  refine ⟨h2.1, ?_⟩
  rw [h2.2]
  decide

/-! ### What pass 2 preserves -/

/-- Status fields untouched by pass 2: the snapshot, the activity bit and
the two pass-1 flag bits (`UnslashedAttester` = bit 6, `EligibleAttester`
= bit 7). -/
def StatusRel (a b : AttesterStatus) : Prop :=
  b.validator = a.validator ∧ b.active = a.active ∧
    b.flags.testBit 6 = a.flags.testBit 6 ∧ b.flags.testBit 7 = a.flags.testBit 7

lemma statusRel_refl (a : AttesterStatus) : StatusRel a a := ⟨rfl, rfl, rfl, rfl⟩

lemma statusRel_trans {a b c : AttesterStatus} (h1 : StatusRel a b) (h2 : StatusRel b c) :
    StatusRel a c :=
  ⟨h2.1.trans h1.1, h2.2.1.trans h1.2.1, h2.2.2.1.trans h1.2.2.1, h2.2.2.2.trans h1.2.2.2⟩

lemma forall2_statusRel_refl (l : List AttesterStatus) : List.Forall₂ StatusRel l l :=
  List.forall₂_same.2 fun x _ => statusRel_refl x

lemma forall2_statusRel_trans :
    ∀ {l1 l2 l3 : List AttesterStatus}, List.Forall₂ StatusRel l1 l2 →
      List.Forall₂ StatusRel l2 l3 → List.Forall₂ StatusRel l1 l3 := by
  intro l1 l2 l3 h1
  induction h1 generalizing l3 with
  | nil =>
    intro h2
    cases h2
    exact List.Forall₂.nil
  | cons hr _ ih =>
    intro h2
    cases h2 with
    | cons hr2 htl2 => exact List.Forall₂.cons (statusRel_trans hr hr2) (ih htl2)

lemma modifyStatus_forall2 (f : AttesterStatus → AttesterStatus)
    (hf : ∀ s, StatusRel s (f s)) :
    ∀ (l : List AttesterStatus) (i : Nat), List.Forall₂ StatusRel l (modifyStatus f l i) := by
  intro l
  induction l with
  | nil => intro i; exact List.Forall₂.nil
  | cons s rest ih =>
    intro i
    cases i with
    | zero => exact List.Forall₂.cons (hf s) (forall2_statusRel_refl rest)
    | succ n => exact List.Forall₂.cons (statusRel_refl s) (ih n)

lemma foldl_statusRel {α : Type} (step : List AttesterStatus → α → List AttesterStatus)
    (hstep : ∀ s a, List.Forall₂ StatusRel s (step s a)) :
    ∀ (xs : List α) (l : List AttesterStatus), List.Forall₂ StatusRel l (xs.foldl step l) := by
  intro xs
  induction xs with
  | nil => intro l; exact forall2_statusRel_refl l
  | cons x xs ih => intro l; exact forall2_statusRel_trans (hstep l x) (ih (step l x))

lemma earliestInclusionUpdate_statusRel (att : PendingAttestation) (s : AttesterStatus) :
    StatusRel s (earliestInclusionUpdate att s) := by
  unfold earliestInclusionUpdate
  split_ifs
  · exact ⟨rfl, rfl, rfl, rfl⟩
  · exact statusRel_refl s

lemma orFlagsUpdate_statusRel (sf tf hfl : Nat) (tm hm : Bool)
    (h6 : sf.testBit 6 = false ∧ tf.testBit 6 = false ∧ hfl.testBit 6 = false)
    (h7 : sf.testBit 7 = false ∧ tf.testBit 7 = false ∧ hfl.testBit 7 = false)
    (s : AttesterStatus) : StatusRel s (orFlagsUpdate sf tf hfl tm hm s) := by
  obtain ⟨hs6, ht6, hh6⟩ := h6
  obtain ⟨hs7, ht7, hh7⟩ := h7
  unfold orFlagsUpdate
  cases tm <;> cases hm <;>
    exact ⟨rfl, rfl,
      by simp [Nat.testBit_lor, hs6, ht6, hh6],
      by simp [Nat.testBit_lor, hs7, ht7, hh7]⟩

lemma processAttestation_forall2 (epc : EpochsContextModel) (broot : Nat → Nat)
    (prevEpoch epoch : Nat) (sf tf hfl : Nat) (atbr : Nat)
    (h6 : sf.testBit 6 = false ∧ tf.testBit 6 = false ∧ hfl.testBit 6 = false)
    (h7 : sf.testBit 7 = false ∧ tf.testBit 7 = false ∧ hfl.testBit 7 = false)
    (statuses : List AttesterStatus) (att : PendingAttestation) :
    List.Forall₂ StatusRel statuses
      (processAttestation epc broot prevEpoch epoch sf tf hfl atbr statuses att) := by
  unfold processAttestation
  dsimp only
  have t1 : List.Forall₂ StatusRel statuses
      (if epoch == prevEpoch then
        (FilterParticipants att.aggregationBits
          (epc.committee att.data.slot att.data.index)).foldl
          (modifyStatus (earliestInclusionUpdate att)) statuses
      else statuses) := by
    split_ifs
    · exact foldl_statusRel _
        (fun s a => modifyStatus_forall2 _ (earliestInclusionUpdate_statusRel att) s a) _ _
    · exact forall2_statusRel_refl statuses
  exact forall2_statusRel_trans t1
    (foldl_statusRel _
      (fun s a => modifyStatus_forall2 _ (orFlagsUpdate_statusRel sf tf hfl _ _ h6 h7) s a) _ _)

lemma processEpochAtts_forall2 (spec : SpecConfig) (epc : EpochsContextModel) (st : StateModel)
    (epoch : Nat) (sf tf hfl : Nat)
    (h6 : sf.testBit 6 = false ∧ tf.testBit 6 = false ∧ hfl.testBit 6 = false)
    (h7 : sf.testBit 7 = false ∧ tf.testBit 7 = false ∧ hfl.testBit 7 = false)
    (atts : List PendingAttestation) (statuses : List AttesterStatus) :
    List.Forall₂ StatusRel statuses
      (processEpochAtts spec epc st epoch sf tf hfl atts statuses) := by
  unfold processEpochAtts
  exact foldl_statusRel _
    (fun s a => processAttestation_forall2 epc st.blockRootAtSlot epc.prevEpoch epoch
      sf tf hfl _ h6 h7 s a) atts statuses

/-- Every final status is `StatusRel`-related to its pass-1 snapshot
status. -/
lemma finalStatuses_forall2 (spec : SpecConfig) (epc : EpochsContextModel) (st : StateModel) :
    List.Forall₂ StatusRel (pass1Statuses epc st) (finalStatuses spec epc st) := by
  unfold finalStatuses
  refine forall2_statusRel_trans
    (processEpochAtts_forall2 spec epc st epc.prevEpoch
      PrevSourceAttester PrevTargetAttester PrevHeadAttester
      (by unfold PrevSourceAttester PrevTargetAttester PrevHeadAttester; decide)
      (by unfold PrevSourceAttester PrevTargetAttester PrevHeadAttester; decide)
      st.prevAttestations (pass1Statuses epc st))
    (processEpochAtts_forall2 spec epc st epc.currEpoch
      CurrSourceAttester CurrTargetAttester CurrHeadAttester
      (by unfold CurrSourceAttester CurrTargetAttester CurrHeadAttester; decide)
      (by unfold CurrSourceAttester CurrTargetAttester CurrHeadAttester; decide)
      st.currAttestations _)

lemma forall2_getElem? {R : AttesterStatus → AttesterStatus → Prop} :
    ∀ {l1 l2 : List AttesterStatus}, List.Forall₂ R l1 l2 →
      ∀ (i : Nat) (a : AttesterStatus), l1[i]? = some a →
        ∃ b, l2[i]? = some b ∧ R a b := by
  intro l1 l2 h
  induction h with
  | nil =>
    intro i a ha
    simp at ha
  | cons hr htl ih =>
    intro i a ha
    cases i with
    | zero =>
      simp only [List.getElem?_cons_zero, Option.some_inj] at ha
      exact ⟨_, by simp, ha ▸ hr⟩
    | succ n =>
      simp only [List.getElem?_cons_succ] at ha ⊢
      exact ih n a ha

lemma mem_queueFilter {p : FlatValidator → Bool} {vals : List FlatValidator} {i : Nat} :
    i ∈ queueFilter p vals ↔ ∃ v, vals[i]? = some v ∧ p v = true := by
  unfold queueFilter
  rw [List.mem_filter, List.mem_range]
  constructor
  · rintro ⟨hi, hp⟩
    cases hv : vals[i]? with
    | none => rw [hv] at hp; cases hp
    | some v =>
      rw [hv] at hp
      exact ⟨v, rfl, hp⟩
  · rintro ⟨v, hv, hp⟩
    refine ⟨?_, by rw [hv]; exact hp⟩
    by_contra hlen
    rw [List.getElem?_eq_none (by omega)] at hv
    cases hv

lemma hasMarkers_two_pow (f k : Nat) : HasMarkers f (2 ^ k) = f.testBit k := by
  unfold HasMarkers
  rw [Nat.and_two_pow]
  cases h : f.testBit k
  · have hne : (0 : Nat) ≠ 2 ^ k := fun hc => (Nat.two_pow_pos k).ne' hc.symm
    simp [h, hne]
  · simp [h]

lemma hasMarkers_unslashed (f : Nat) : HasMarkers f UnslashedAttester = f.testBit 6 := by
  rw [show UnslashedAttester = 2 ^ 6 by decide]
  exact hasMarkers_two_pow f 6

lemma status1_testBit6 (prevEpoch currEpoch : Nat) (v : FlatValidator) :
    (status1 prevEpoch currEpoch v).flags.testBit 6 = !v.slashed := by
  unfold status1
  dsimp only
  by_cases hsl : v.slashed = true
  · rw [if_pos hsl, hsl]
    split_ifs <;> decide
  · rw [if_neg hsl]
    rw [Bool.not_eq_true] at hsl
    rw [hsl]
    split_ifs <;> decide

/-- C2, as the claim words it: queue the validator when slashed with the
matching withdrawable epoch, "else" (i.e. in every other case) mark
`UnslashedAttester`. -/
def claim2Statement (ctx : Nat → Bool) (spec : SpecConfig) (epc : EpochsContextModel)
    (st : StateModel) : Prop :=
  ∀ ep, PrepareEpochProcess ctx spec epc st = .ok ep →
    ∀ i v, st.validators[i]? = some v →
      ((v.slashed = true ∧ slashingsEpochOf spec epc = v.withdrawableEpoch) →
        i ∈ ep.IndicesToSlash) ∧
      (¬(v.slashed = true ∧ slashingsEpochOf spec epc = v.withdrawableEpoch) →
        ∀ s, ep.Statuses[i]? = some s → HasMarkers s.flags UnslashedAttester = true)

/-- A registry holding one slashed validator whose withdrawable epoch (0)
differs from `current_epoch + EPOCHS_PER_SLASHINGS_VECTOR/2 = 4097`. -/
def c2State : StateModel where
  validators := [{ sampleValidator with slashed := true, withdrawableEpoch := 0 }]
  blockRootAtSlot := fun _ => 0
  prevAttestations := []
  currAttestations := []
  finalizedEpoch := 0

/-- Counterexample for C2: on `c2State` the single validator is slashed
with a non-matching withdrawable epoch, so pass 1 neither queues it nor
marks it `UnslashedAttester` — but the claim's "else" branch requires the
mark. -/
theorem claim2_counterexample :
    ¬ claim2Statement (fun _ => false) sampleSpec sampleEpc c2State := by
  intro h
  have h0 := h (prepareOutcome sampleSpec sampleEpc c2State) rfl 0
    { sampleValidator with slashed := true, withdrawableEpoch := 0 } rfl
  have h2 := h0.2 (by decide) ((prepareOutcome sampleSpec sampleEpc c2State).Statuses.headI)
  have h3 := h2 (by decide)
  exact absurd h3 (by decide)

/-- C2 (amended): in pass 1, a validator is queued for slashing exactly
when it is slashed with withdrawable epoch equal to
`current_epoch + EPOCHS_PER_SLASHINGS_VECTOR/2`, and its status carries
`UnslashedAttester` exactly when it is not slashed (a slashed validator
with a different withdrawable epoch is neither queued nor marked). -/
theorem claim2_amended (ctx : Nat → Bool) (spec : SpecConfig) (epc : EpochsContextModel)
    (st : StateModel) (ep : EpochProcess)
    (h : PrepareEpochProcess ctx spec epc st = .ok ep)
    (i : Nat) (v : FlatValidator) (hv : st.validators[i]? = some v) :
    (i ∈ ep.IndicesToSlash ↔
      (v.slashed = true ∧ slashingsEpochOf spec epc = v.withdrawableEpoch)) ∧
    (∀ s, ep.Statuses[i]? = some s →
      HasMarkers s.flags UnslashedAttester = !v.slashed) := by
  rw [prepare_ok_elim ctx spec epc st ep h]
  constructor
  · show i ∈ indicesToSlashOf spec epc st ↔ _
    unfold indicesToSlashOf
    rw [mem_queueFilter]
    constructor
    · rintro ⟨w, hw, hp⟩
      rw [hv] at hw
      injection hw with hw
      subst hw
      simp only [Bool.and_eq_true, beq_iff_eq] at hp
      exact ⟨hp.1, hp.2⟩
    · rintro ⟨h1, h2⟩
      refine ⟨v, hv, ?_⟩
      simp only [Bool.and_eq_true, beq_iff_eq]
      exact ⟨h1, h2⟩
  · intro s hs
    show HasMarkers s.flags UnslashedAttester = !v.slashed
    have hp1 : (pass1Statuses epc st)[i]? = some (status1 epc.prevEpoch epc.currEpoch v) := by
      unfold pass1Statuses
      rw [List.getElem?_map, hv]
      rfl
    obtain ⟨b, hb, hrel⟩ :=
      forall2_getElem? (finalStatuses_forall2 spec epc st) i _ hp1
    have hsb : s = b := by
      have : (prepareOutcome spec epc st).Statuses = finalStatuses spec epc st := rfl
      rw [this] at hs
      rw [hs] at hb
      injection hb
    subst hsb
    rw [hasMarkers_unslashed, hrel.2.2.1, status1_testBit6]

/-- Witness for C2 (amended): a registry with one slashed matching
validator, one slashed non-matching validator and one unslashed
validator. -/
def c2WitnessState : StateModel where
  validators :=
    [{ sampleValidator with slashed := true, withdrawableEpoch := 4097 },
     { sampleValidator with slashed := true, withdrawableEpoch := 0 },
     sampleValidator]
  blockRootAtSlot := fun _ => 0
  prevAttestations := []
  currAttestations := []
  finalizedEpoch := 0

theorem claim2_witness :
    (0 ∈ (prepareOutcome sampleSpec sampleEpc c2WitnessState).IndicesToSlash ↔
      ((true : Bool) = true ∧ slashingsEpochOf sampleSpec sampleEpc = 4097)) ∧
    (∀ s, (prepareOutcome sampleSpec sampleEpc c2WitnessState).Statuses[1]? = some s →
      HasMarkers s.flags UnslashedAttester = !true) := by
  have h1 := claim2_amended (fun _ => false) sampleSpec sampleEpc c2WitnessState
    (prepareOutcome sampleSpec sampleEpc c2WitnessState) rfl 0
    { sampleValidator with slashed := true, withdrawableEpoch := 4097 } rfl
  have h2 := claim2_amended (fun _ => false) sampleSpec sampleEpc c2WitnessState
    (prepareOutcome sampleSpec sampleEpc c2WitnessState) rfl 1
    { sampleValidator with slashed := true, withdrawableEpoch := 0 } rfl
  exact ⟨h1.1, h2.2⟩

/-! ### The head-implies-target invariant (C7) -/

/-- Head flag only together with target flag, for both epochs: bit 2
(`PrevHeadAttester`) implies bit 1 (`PrevTargetAttester`), bit 5
(`CurrHeadAttester`) implies bit 4 (`CurrTargetAttester`). -/
def HeadTargetInv (fl : Nat) : Prop :=
  (fl.testBit 2 = true → fl.testBit 1 = true) ∧
  (fl.testBit 5 = true → fl.testBit 4 = true)

lemma mem_modifyStatus {f : AttesterStatus → AttesterStatus} :
    ∀ {l : List AttesterStatus} {i : Nat} {x : AttesterStatus},
      x ∈ modifyStatus f l i → x ∈ l ∨ ∃ y, y ∈ l ∧ x = f y := by
  intro l
  induction l with
  | nil =>
    intro i x hx
    cases hx
  | cons s rest ih =>
    intro i x hx
    cases i with
    | zero =>
      rcases List.mem_cons.1 hx with rfl | hx
      · exact Or.inr ⟨s, List.mem_cons_self s rest, rfl⟩
      · exact Or.inl (List.mem_cons_of_mem s hx)
    | succ n =>
      rcases List.mem_cons.1 hx with rfl | hx
      · exact Or.inl (List.mem_cons_self _ _)
      · rcases ih hx with h | ⟨y, hy, rfl⟩
        · exact Or.inl (List.mem_cons_of_mem s h)
        · exact Or.inr ⟨y, List.mem_cons_of_mem s hy, rfl⟩

lemma foldl_mem_inv {α : Type} (step : List AttesterStatus → α → List AttesterStatus)
    (P : AttesterStatus → Prop)
    (hstep : ∀ s a, (∀ y ∈ s, P y) → ∀ x ∈ step s a, P x) :
    ∀ (xs : List α) (l : List AttesterStatus),
      (∀ y ∈ l, P y) → ∀ x ∈ xs.foldl step l, P x := by
  intro xs
  induction xs with
  | nil => intro l hl x hx; exact hl x hx
  | cons a xs ih => intro l hl x hx; exact ih (step l a) (hstep l a hl) x hx

lemma modifyStatus_mem_inv (f : AttesterStatus → AttesterStatus) (P : AttesterStatus → Prop)
    (hf : ∀ y, P y → P (f y)) (l : List AttesterStatus) (i : Nat)
    (hl : ∀ y ∈ l, P y) : ∀ x ∈ modifyStatus f l i, P x := by
  intro x hx
  rcases mem_modifyStatus hx with h | ⟨y, hy, rfl⟩
  · exact hl x h
  · exact hf y (hl y hy)

lemma orFlagsUpdate_flags_cases (sf tf hfl : Nat) (tm hm : Bool) (s : AttesterStatus) :
    (orFlagsUpdate sf tf hfl tm hm s).flags = s.flags ||| sf ∨
    (orFlagsUpdate sf tf hfl tm hm s).flags = (s.flags ||| sf) ||| tf ∨
    (orFlagsUpdate sf tf hfl tm hm s).flags = ((s.flags ||| sf) ||| tf) ||| hfl := by
  unfold orFlagsUpdate
  cases tm <;> cases hm <;> simp

lemma headTargetInv_or_prev (f : Nat) (h : HeadTargetInv f) :
    HeadTargetInv (f ||| PrevSourceAttester) ∧
    HeadTargetInv ((f ||| PrevSourceAttester) ||| PrevTargetAttester) ∧
    HeadTargetInv (((f ||| PrevSourceAttester) ||| PrevTargetAttester) ||| PrevHeadAttester) := by
  unfold HeadTargetInv PrevSourceAttester PrevTargetAttester PrevHeadAttester at *
  simp only [Nat.testBit_lor]
  revert h
  generalize f.testBit 1 = b1
  generalize f.testBit 2 = b2
  generalize f.testBit 4 = b4
  generalize f.testBit 5 = b5
  revert b1 b2 b4 b5
  decide

lemma headTargetInv_or_curr (f : Nat) (h : HeadTargetInv f) :
    HeadTargetInv (f ||| CurrSourceAttester) ∧
    HeadTargetInv ((f ||| CurrSourceAttester) ||| CurrTargetAttester) ∧
    HeadTargetInv (((f ||| CurrSourceAttester) ||| CurrTargetAttester) ||| CurrHeadAttester) := by
  unfold HeadTargetInv CurrSourceAttester CurrTargetAttester CurrHeadAttester at *
  simp only [Nat.testBit_lor]
  revert h
  generalize f.testBit 1 = b1
  generalize f.testBit 2 = b2
  generalize f.testBit 4 = b4
  generalize f.testBit 5 = b5
  revert b1 b2 b4 b5
  decide

lemma processEpochAtts_inv (spec : SpecConfig) (epc : EpochsContextModel) (st : StateModel)
    (epoch : Nat) (sf tf hfl : Nat)
    (hor : ∀ s : AttesterStatus, HeadTargetInv s.flags →
      HeadTargetInv (s.flags ||| sf) ∧ HeadTargetInv ((s.flags ||| sf) ||| tf) ∧
        HeadTargetInv (((s.flags ||| sf) ||| tf) ||| hfl))
    (atts : List PendingAttestation) (statuses : List AttesterStatus)
    (hstat : ∀ y ∈ statuses, HeadTargetInv y.flags) :
    ∀ x ∈ processEpochAtts spec epc st epoch sf tf hfl atts statuses,
      HeadTargetInv x.flags := by
  unfold processEpochAtts
  refine foldl_mem_inv _ _ ?_ atts statuses hstat
  intro s att hs
  unfold processAttestation
  refine foldl_mem_inv _ _ ?_ _ _ ?_
  · intro s2 p hs2
    refine modifyStatus_mem_inv _ _ ?_ s2 p hs2
    intro y hy
    rcases orFlagsUpdate_flags_cases sf tf hfl
        (att.data.target.root == st.blockRootAtSlot (EpochStartSlot spec epoch))
        (att.data.beaconBlockRoot == st.blockRootAtSlot att.data.slot) y with hc | hc | hc
    all_goals
      show HeadTargetInv (orFlagsUpdate _ _ _ _ _ y).flags
    · rw [hc]; exact (hor y hy).1
    · rw [hc]; exact (hor y hy).2.1
    · rw [hc]; exact (hor y hy).2.2
  · split_ifs
    · refine foldl_mem_inv _ _ ?_ _ _ hs
      intro s2 p hs2
      refine modifyStatus_mem_inv _ _ ?_ s2 p hs2
      intro y hy
      unfold earliestInclusionUpdate
      split_ifs
      · exact hy
      · exact hy
    · exact hs

lemma status1_inv (prevEpoch currEpoch : Nat) (v : FlatValidator) :
    HeadTargetInv (status1 prevEpoch currEpoch v).flags := by
  unfold status1 HeadTargetInv
  dsimp only
  split_ifs <;> decide

/-- C7: in every prepared `EpochProcess`, the head flag implies the
target flag, for both the previous and the current epoch. -/
theorem claim7_head_implies_target (ctx : Nat → Bool) (spec : SpecConfig)
    (epc : EpochsContextModel) (st : StateModel) (ep : EpochProcess)
    (h : PrepareEpochProcess ctx spec epc st = .ok ep) :
    ∀ s ∈ ep.Statuses,
      (HasMarkers s.flags PrevHeadAttester = true →
        HasMarkers s.flags PrevTargetAttester = true) ∧
      (HasMarkers s.flags CurrHeadAttester = true →
        HasMarkers s.flags CurrTargetAttester = true) := by
  rw [prepare_ok_elim ctx spec epc st ep h]
  have hfin : ∀ x ∈ finalStatuses spec epc st, HeadTargetInv x.flags := by
    unfold finalStatuses
    refine processEpochAtts_inv spec epc st epc.currEpoch _ _ _
      (fun s hs => headTargetInv_or_curr s.flags hs) st.currAttestations _ ?_
    refine processEpochAtts_inv spec epc st epc.prevEpoch _ _ _
      (fun s hs => headTargetInv_or_prev s.flags hs) st.prevAttestations _ ?_
    intro y hy
    unfold pass1Statuses at hy
    rcases List.mem_map.1 hy with ⟨v, -, rfl⟩
    exact status1_inv epc.prevEpoch epc.currEpoch v
  intro s hs
  have hinv := hfin s hs
  rw [show PrevHeadAttester = 2 ^ 2 by decide, show PrevTargetAttester = 2 ^ 1 by decide,
    show CurrHeadAttester = 2 ^ 5 by decide, show CurrTargetAttester = 2 ^ 4 by decide]
  rw [hasMarkers_two_pow, hasMarkers_two_pow, hasMarkers_two_pow, hasMarkers_two_pow]
  exact hinv

/-- Witness for C7: the invariant holds of the first status of a
concretely prepared process. -/
theorem claim7_witness :
    (HasMarkers (prepareOutcome sampleSpec sampleEpc c10State).Statuses.headI.flags
        PrevHeadAttester = true →
      HasMarkers (prepareOutcome sampleSpec sampleEpc c10State).Statuses.headI.flags
        PrevTargetAttester = true) ∧
    (HasMarkers (prepareOutcome sampleSpec sampleEpc c10State).Statuses.headI.flags
        CurrHeadAttester = true →
      HasMarkers (prepareOutcome sampleSpec sampleEpc c10State).Statuses.headI.flags
        CurrTargetAttester = true) :=
  claim7_head_implies_target (fun _ => false) sampleSpec sampleEpc c10State
    (prepareOutcome sampleSpec sampleEpc c10State) rfl
    (prepareOutcome sampleSpec sampleEpc c10State).Statuses.headI (by decide)

/-! ### Sortedness of the maybe-activate queue (C5) -/

lemma queueFilter_nodup (p : FlatValidator → Bool) (vals : List FlatValidator) :
    (queueFilter p vals).Nodup := by
  unfold queueFilter
  exact (List.nodup_range _).filter _

/-- The sort key of the claim, read off the state: the candidate's
activation-eligibility epoch. -/
def validatorEligibility (st : StateModel) (i : Nat) : Nat :=
  match st.validators[i]? with
  | some v => v.activationEligibilityEpoch
  | none => 0

lemma statusEligibility_pass1 (epc : EpochsContextModel) (st : StateModel) (i : Nat) :
    statusEligibility (pass1Statuses epc st) i = validatorEligibility st i := by
  unfold statusEligibility validatorEligibility pass1Statuses
  rw [List.getElem?_map]
  cases st.validators[i]? <;> rfl

lemma pairwise_and_of {α : Type} {R S : α → α → Prop} :
    ∀ {l : List α}, List.Pairwise R l → List.Pairwise S l →
      List.Pairwise (fun a b => R a b ∧ S a b) l := by
  intro l hR
  induction hR with
  | nil => intro _; exact List.Pairwise.nil
  | cons hr _ ih =>
    intro hS
    cases hS with
    | cons hs hS2 => exact List.Pairwise.cons (fun b hb => ⟨hr b hb, hs b hb⟩) (ih hS2)

/-- C5: the maybe-activate queue of a prepared `EpochProcess` is strictly
sorted by `(activation_eligibility_epoch, validator index)` — for
positions `i < j` either the eligibility epoch is smaller at `i`, or the
epochs are equal and the index at `i` is smaller — and it is a
permutation of the candidate set, so the order is a function of these two
keys alone. -/
theorem claim5_maybe_activate_sorted (ctx : Nat → Bool) (spec : SpecConfig)
    (epc : EpochsContextModel) (st : StateModel) (ep : EpochProcess)
    (h : PrepareEpochProcess ctx spec epc st = .ok ep) :
    List.Pairwise
      (fun a b => validatorEligibility st a < validatorEligibility st b ∨
        (validatorEligibility st a = validatorEligibility st b ∧ a < b))
      ep.IndicesToMaybeActivate ∧
    ep.IndicesToMaybeActivate.Perm (maybeActivateCandidates epc st) := by
  rw [prepare_ok_elim ctx spec epc st ep h]
  show List.Pairwise _ (indicesToMaybeActivateOf epc st) ∧
    (indicesToMaybeActivateOf epc st).Perm (maybeActivateCandidates epc st)
  unfold indicesToMaybeActivateOf
  have hperm := List.perm_insertionSort (maybeActivateLe (pass1Statuses epc st))
    (maybeActivateCandidates epc st)
  refine ⟨?_, hperm⟩
  have hsorted := List.sorted_insertionSort (maybeActivateLe (pass1Statuses epc st))
    (maybeActivateCandidates epc st)
  have hnodup : (List.insertionSort (maybeActivateLe (pass1Statuses epc st))
      (maybeActivateCandidates epc st)).Nodup :=
    hperm.symm.nodup (queueFilter_nodup _ _)
  have hcomb := pairwise_and_of hsorted hnodup
  refine hcomb.imp ?_
  rintro a b ⟨hle, hne⟩
  rcases hle with hlt | ⟨heq, hab⟩
  · rw [statusEligibility_pass1, statusEligibility_pass1] at hlt
    exact Or.inl hlt
  · rw [statusEligibility_pass1, statusEligibility_pass1] at heq
    exact Or.inr ⟨heq, Nat.lt_of_le_of_ne hab hne⟩

/-- Two eligible-but-unactivated validators with out-of-order eligibility
epochs. -/
def c5State : StateModel where
  validators :=
    [{ sampleValidator with activationEpoch := FAR_FUTURE_EPOCH,
                            activationEligibilityEpoch := 1 },
     { sampleValidator with activationEpoch := FAR_FUTURE_EPOCH,
                            activationEligibilityEpoch := 0 }]
  blockRootAtSlot := fun _ => 0
  prevAttestations := []
  currAttestations := []
  finalizedEpoch := 0

/-- Witness for C5: on `c5State` the queue is sorted into `[1, 0]` (the
index-1 validator has the smaller eligibility epoch). -/
theorem claim5_witness :
    List.Pairwise
      (fun a b => validatorEligibility c5State a < validatorEligibility c5State b ∨
        (validatorEligibility c5State a = validatorEligibility c5State b ∧ a < b))
      (prepareOutcome sampleSpec sampleEpc c5State).IndicesToMaybeActivate ∧
    (prepareOutcome sampleSpec sampleEpc c5State).IndicesToMaybeActivate.Perm
      (maybeActivateCandidates sampleEpc c5State) :=
  claim5_maybe_activate_sorted (fun _ => false) sampleSpec sampleEpc c5State
    (prepareOutcome sampleSpec sampleEpc c5State) rfl

/-! ### Registry-update lemmas (C4, C6, C9) -/

lemma modifyVal_length (f : FlatValidator → FlatValidator) :
    ∀ (l : List FlatValidator) (i : Nat), (modifyVal f l i).length = l.length := by
  intro l
  induction l with
  | nil => intro i; rfl
  | cons v rest ih =>
    intro i
    cases i with
    | zero => simp [modifyVal]
    | succ n => simp [modifyVal, ih n]

lemma modifyVal_getElem?_self (f : FlatValidator → FlatValidator) :
    ∀ (l : List FlatValidator) (i : Nat), (modifyVal f l i)[i]? = (l[i]?).map f := by
  intro l
  induction l with
  | nil => intro i; rfl
  | cons v rest ih =>
    intro i
    cases i with
    | zero => simp [modifyVal]
    | succ n => simp [modifyVal, ih n]

lemma modifyVal_getElem?_ne (f : FlatValidator → FlatValidator) :
    ∀ (l : List FlatValidator) (i j : Nat), i ≠ j →
      (modifyVal f l i)[j]? = l[j]? := by
  intro l
  induction l with
  | nil => intro i j _; rfl
  | cons v rest ih =>
    intro i j hij
    cases i with
    | zero =>
      cases j with
      | zero => exact absurd rfl hij
      | succ m => simp [modifyVal]
    | succ n =>
      cases j with
      | zero => simp [modifyVal]
      | succ m => simp [modifyVal, ih n m (by omega)]

/-- Entries not on the to-eject list are untouched by the ejection pass. -/
lemma processEjections_frame (delay limit : Nat) :
    ∀ (toEject : List Nat) (registry : List FlatValidator)
      (exitEnd : Nat) (endChurn : Nat) (j : Nat), j ∉ toEject →
      (processEjections delay limit registry toEject exitEnd endChurn)[j]? = registry[j]? := by
  intro toEject
  induction toEject with
  | nil => intro registry exitEnd endChurn j _; rfl
  | cons i rest ih =>
    intro registry exitEnd endChurn j hj
    have hji : j ≠ i := fun hc => hj (hc ▸ List.mem_cons_self i rest)
    have hjr : j ∉ rest := fun hc => hj (List.mem_cons_of_mem i hc)
    unfold processEjections
    split_ifs with hc
    · rw [ih _ _ _ j hjr, modifyVal_getElem?_ne _ _ _ _ (Ne.symm hji)]
    · rw [ih _ _ _ j hjr, modifyVal_getElem?_ne _ _ _ _ (Ne.symm hji)]

lemma processEjections_length (delay limit : Nat) :
    ∀ (toEject : List Nat) (registry : List FlatValidator)
      (exitEnd : Nat) (endChurn : Nat),
      (processEjections delay limit registry toEject exitEnd endChurn).length =
        registry.length := by
  intro toEject
  induction toEject with
  | nil => intro registry exitEnd endChurn; rfl
  | cons i rest ih =>
    intro registry exitEnd endChurn
    unfold processEjections
    split_ifs with hc <;> rw [ih, modifyVal_length]

/-- Whether the registry records exit epoch `e` at index `i`. -/
def exitEpochAt (registry : List FlatValidator) (i : Nat) (e : Nat) : Bool :=
  match registry[i]? with
  | some v => v.exitEpoch == e
  | none => false

/-- How many more validators the ejection pass may still assign to exit
epoch `e`, given the cursor. -/
def assignedBound (e exitEnd : Nat) (endChurn limit : Nat) : Nat :=
  if e < exitEnd then 0 else if e = exitEnd then limit - endChurn else limit

lemma assignedBound_of_lt {e exitEnd : Nat} (endChurn limit : Nat) (h : e < exitEnd) :
    assignedBound e exitEnd endChurn limit = 0 := by
  unfold assignedBound
  rw [if_pos h]

lemma assignedBound_self (exitEnd : Nat) (endChurn limit : Nat) :
    assignedBound exitEnd exitEnd endChurn limit = limit - endChurn := by
  unfold assignedBound
  rw [if_neg (Nat.lt_irrefl exitEnd), if_pos rfl]

lemma assignedBound_of_gt {e exitEnd : Nat} (endChurn limit : Nat) (h : exitEnd < e) :
    assignedBound e exitEnd endChurn limit = limit := by
  unfold assignedBound
  rw [if_neg (by omega), if_neg (by omega)]

lemma processEjections_count_le (delay limit : Nat) :
    ∀ (toEject : List Nat) (registry : List FlatValidator)
      (exitEnd : Nat) (endChurn : Nat),
      endChurn < limit → toEject.Nodup → (∀ i ∈ toEject, i < registry.length) →
      ∀ e, toEject.countP
          (fun i => exitEpochAt
            (processEjections delay limit registry toEject exitEnd endChurn) i e) ≤
        assignedBound e exitEnd endChurn limit := by
  intro toEject
  induction toEject with
  | nil =>
    intro registry exitEnd endChurn _ _ _ e
    simp [List.countP_nil, assignedBound]
  | cons i rest ih =>
    intro registry exitEnd endChurn hchurn hnd hvalid e
    have hirest : i ∉ rest := (List.nodup_cons.1 hnd).1
    have hndrest : rest.Nodup := (List.nodup_cons.1 hnd).2
    have hilen : i < registry.length := hvalid i (List.mem_cons_self i rest)
    -- the head element's final entry
    have hreg1 : ∀ (registry1 : List FlatValidator) (ee : Nat) (ec : Nat),
        registry1 = modifyVal
          (fun v => { v with exitEpoch := exitEnd,
                             withdrawableEpoch := exitEnd + delay }) registry i →
        (processEjections delay limit registry1 rest ee ec)[i]? =
          (registry[i]?).map (fun v => { v with exitEpoch := exitEnd,
                                                withdrawableEpoch := exitEnd + delay }) := by
      intro registry1 ee ec hr1
      rw [processEjections_frame delay limit rest registry1 ee ec i hirest, hr1,
        modifyVal_getElem?_self]
    unfold processEjections
    dsimp only
    split_ifs with hc
    · -- churn limit reached: cursor advances to (exitEnd + 1, 0)
      have hbound := ih (modifyVal
          (fun v => { v with exitEpoch := exitEnd,
                             withdrawableEpoch := exitEnd + delay }) registry i)
        (exitEnd + 1) 0 (by omega) hndrest
        (fun j hj => by rw [modifyVal_length]; exact hvalid j (List.mem_cons_of_mem i hj))
        e
      rw [List.countP_cons]
      have hhead : exitEpochAt
          (processEjections delay limit
            (modifyVal (fun v => { v with exitEpoch := exitEnd,
                                          withdrawableEpoch := exitEnd + delay }) registry i)
            rest (exitEnd + 1) 0) i e = (exitEnd == e) := by
        unfold exitEpochAt
        rw [hreg1 _ _ _ rfl, List.getElem?_eq_getElem hilen]
        rfl
      rw [hhead]
      rcases Nat.lt_trichotomy e exitEnd with hlt | heq | hgt
      · have hb0 : (exitEnd == e) = false := by
          simp only [beq_eq_false_iff_ne, ne_eq]
          omega
        rw [hb0, if_neg Bool.false_ne_true, assignedBound_of_lt _ _ hlt]
        rw [assignedBound_of_lt _ _ (by omega : e < exitEnd + 1)] at hbound
        omega
      · subst heq
        have hb1 : (e == e) = true := by simp
        rw [hb1, if_pos rfl, assignedBound_self]
        rw [assignedBound_of_lt _ _ (Nat.lt_succ_self e)] at hbound
        omega
      · have hb0 : (exitEnd == e) = false := by
          simp only [beq_eq_false_iff_ne, ne_eq]
          omega
        rw [hb0, if_neg Bool.false_ne_true, assignedBound_of_gt _ _ hgt]
        rcases Nat.lt_trichotomy e (exitEnd + 1) with h2 | h2 | h2
        · omega
        · subst h2
          rw [assignedBound_self] at hbound
          omega
        · rw [assignedBound_of_gt _ _ h2] at hbound
          omega
    · -- below the limit: cursor advances to (exitEnd, endChurn + 1)
      have hbound := ih (modifyVal
          (fun v => { v with exitEpoch := exitEnd,
                             withdrawableEpoch := exitEnd + delay }) registry i)
        exitEnd (endChurn + 1) (by omega) hndrest
        (fun j hj => by rw [modifyVal_length]; exact hvalid j (List.mem_cons_of_mem i hj))
        e
      rw [List.countP_cons]
      have hhead : exitEpochAt
          (processEjections delay limit
            (modifyVal (fun v => { v with exitEpoch := exitEnd,
                                          withdrawableEpoch := exitEnd + delay }) registry i)
            rest exitEnd (endChurn + 1)) i e = (exitEnd == e) := by
        unfold exitEpochAt
        rw [hreg1 _ _ _ rfl, List.getElem?_eq_getElem hilen]
        rfl
      rw [hhead]
      rcases Nat.lt_trichotomy e exitEnd with hlt | heq | hgt
      · have hb0 : (exitEnd == e) = false := by
          simp only [beq_eq_false_iff_ne, ne_eq]
          omega
        rw [hb0, if_neg Bool.false_ne_true, assignedBound_of_lt _ _ hlt]
        rw [assignedBound_of_lt _ _ hlt] at hbound
        omega
      · subst heq
        have hb1 : (e == e) = true := by simp
        rw [hb1, if_pos rfl, assignedBound_self]
        rw [assignedBound_self] at hbound
        omega
      · have hb0 : (exitEnd == e) = false := by
          simp only [beq_eq_false_iff_ne, ne_eq]
          omega
        rw [hb0, if_neg Bool.false_ne_true, assignedBound_of_gt _ _ hgt]
        rw [assignedBound_of_gt _ _ hgt] at hbound
        omega

lemma mem_queueFilter_lt {p : FlatValidator → Bool} {vals : List FlatValidator} {i : Nat}
    (h : i ∈ queueFilter p vals) : i < vals.length := by
  rcases mem_queueFilter.1 h with ⟨v, hv, -⟩
  by_contra hlen
  rw [List.getElem?_eq_none (by omega)] at hv
  cases hv

/-- The cursor computed by `PrepareEpochProcess` always sits strictly
below a positive churn limit. -/
lemma prepared_churn_lt (spec : SpecConfig) (epc : EpochsContextModel) (st : StateModel)
    (hlim : 0 < (prepareOutcome spec epc st).ChurnLimit) :
    (prepareOutcome spec epc st).ExitQueueEndChurn < (prepareOutcome spec epc st).ChurnLimit := by
  show (if churnLimitOf spec epc st ≤ exitQueueChurnCount spec epc st then 0
        else exitQueueChurnCount spec epc st) < churnLimitOf spec epc st
  have hlim2 : 0 < churnLimitOf spec epc st := hlim
  split_ifs with hc
  · exact hlim2
  · omega

/-- C4: starting from the cursor prepared by `PrepareEpochProcess` (with
a positive churn limit), the ejection pass assigns at most
`ChurnLimit` validators to any one exit epoch, counting the validators
already at the initial queue-end epoch. -/
theorem claim4_churn_conservation (ctx : Nat → Bool) (spec : SpecConfig)
    (epc : EpochsContextModel) (st : StateModel) (ep : EpochProcess)
    (h : PrepareEpochProcess ctx spec epc st = .ok ep)
    (hlim : 0 < ep.ChurnLimit) :
    ∀ e, ep.IndicesToEject.countP
        (fun i => exitEpochAt
          (processEjections spec.MIN_VALIDATOR_WITHDRAWABILITY_DELAY ep.ChurnLimit
            st.validators ep.IndicesToEject ep.ExitQueueEnd ep.ExitQueueEndChurn) i e) +
      (if e = ep.ExitQueueEnd then ep.ExitQueueEndChurn else 0) ≤ ep.ChurnLimit := by
  have hep := prepare_ok_elim ctx spec epc st ep h
  subst hep
  intro e
  have hchurn := prepared_churn_lt spec epc st hlim
  have hnd : (prepareOutcome spec epc st).IndicesToEject.Nodup := queueFilter_nodup _ _
  have hvalid : ∀ i ∈ (prepareOutcome spec epc st).IndicesToEject, i < st.validators.length :=
    fun i hi => mem_queueFilter_lt hi
  have hmain := processEjections_count_le spec.MIN_VALIDATOR_WITHDRAWABILITY_DELAY
    ((prepareOutcome spec epc st).ChurnLimit) ((prepareOutcome spec epc st).IndicesToEject)
    st.validators ((prepareOutcome spec epc st).ExitQueueEnd)
    ((prepareOutcome spec epc st).ExitQueueEndChurn) hchurn hnd hvalid e
  rcases Nat.lt_trichotomy e ((prepareOutcome spec epc st).ExitQueueEnd) with hlt | heq | hgt
  · rw [assignedBound_of_lt _ _ hlt] at hmain
    rw [if_neg (by omega)]
    omega
  · rw [heq, assignedBound_self] at hmain
    rw [if_pos heq]
    rw [heq]
    omega
  · rw [assignedBound_of_gt _ _ hgt] at hmain
    rw [if_neg (by omega)]
    omega

/-- A registry with three active low-balance validators to eject, with a
churn limit of 4: all three are assigned the same (initial) exit epoch. -/
def c4State : StateModel where
  validators :=
    [{ sampleValidator with effectiveBalance := 15000000000 },
     { sampleValidator with effectiveBalance := 15000000000 },
     { sampleValidator with effectiveBalance := 15000000000 }]
  blockRootAtSlot := fun _ => 0
  prevAttestations := []
  currAttestations := []
  finalizedEpoch := 0

/-- Witness for C4 at `e = 6`, the initial queue-end epoch of `c4State`:
three ejections plus zero initial churn stay within the limit of 4. -/
theorem claim4_witness :
    (prepareOutcome sampleSpec sampleEpc c4State).IndicesToEject.countP
        (fun i => exitEpochAt
          (processEjections sampleSpec.MIN_VALIDATOR_WITHDRAWABILITY_DELAY
            (prepareOutcome sampleSpec sampleEpc c4State).ChurnLimit
            c4State.validators (prepareOutcome sampleSpec sampleEpc c4State).IndicesToEject
            (prepareOutcome sampleSpec sampleEpc c4State).ExitQueueEnd
            (prepareOutcome sampleSpec sampleEpc c4State).ExitQueueEndChurn) i 6) +
      (if 6 = (prepareOutcome sampleSpec sampleEpc c4State).ExitQueueEnd then
        (prepareOutcome sampleSpec sampleEpc c4State).ExitQueueEndChurn else 0) ≤
    (prepareOutcome sampleSpec sampleEpc c4State).ChurnLimit :=
  claim4_churn_conservation (fun _ => false) sampleSpec sampleEpc c4State
    (prepareOutcome sampleSpec sampleEpc c4State) rfl (by decide) 6

lemma mem_takeWhile_mem {p : Nat → Bool} {l : List Nat} {x : Nat}
    (h : x ∈ l.takeWhile p) : x ∈ l :=
  (List.takeWhile_sublist p).subset h

lemma processActivationsWalk_getElem? (statuses : List AttesterStatus) (fin act : Nat) :
    ∀ (dequeued : List Nat) (registry : List FlatValidator), dequeued.Nodup →
      ∀ j, (processActivationsWalk statuses fin act registry dequeued)[j]? =
        if j ∈ dequeued.takeWhile (fun i => decide (statusEligibility statuses i ≤ fin)) then
          (registry[j]?).map (fun v => { v with activationEpoch := act })
        else registry[j]? := by
  intro dequeued
  induction dequeued with
  | nil =>
    intro registry _ j
    rw [if_neg (by simp)]
    rfl
  | cons idx rest ih =>
    intro registry hnd j
    have hirest : idx ∉ rest := (List.nodup_cons.1 hnd).1
    have hndrest : rest.Nodup := (List.nodup_cons.1 hnd).2
    unfold processActivationsWalk
    rw [List.takeWhile_cons]
    by_cases hel : fin < statusEligibility statuses idx
    · rw [if_pos hel]
      have hdec : decide (statusEligibility statuses idx ≤ fin) = false := by
        simp only [decide_eq_false_iff_not]
        omega
      rw [hdec]
      rw [if_neg Bool.false_ne_true, if_neg (by simp)]
    · rw [if_neg hel]
      have hdec : decide (statusEligibility statuses idx ≤ fin) = true := by
        simp only [decide_eq_true_eq]
        omega
      rw [hdec, if_pos rfl]
      rw [ih (modifyVal (fun v => { v with activationEpoch := act }) registry idx) hndrest j]
      by_cases hji : j = idx
      · subst hji
        have hnot : j ∉ rest.takeWhile
            (fun i => decide (statusEligibility statuses i ≤ fin)) :=
          fun hc => hirest (mem_takeWhile_mem hc)
        rw [if_neg hnot, if_pos (List.mem_cons_self _ _), modifyVal_getElem?_self]
      · rw [modifyVal_getElem?_ne _ _ _ _ (fun hc => hji hc.symm)]
        by_cases hjm : j ∈ rest.takeWhile
            (fun i => decide (statusEligibility statuses i ≤ fin))
        · rw [if_pos hjm, if_pos (List.mem_cons_of_mem _ hjm)]
        · rw [if_neg hjm, if_neg ?_]
          intro hc
          rcases List.mem_cons.1 hc with hc2 | hc2
          · exact hji hc2
          · exact hjm hc2

/-- C6: the activation pass reads exactly the churn-limited prefix of the
sorted maybe-activate queue, accepts its longest prefix whose snapshot
eligibility epochs do not exceed the finalized epoch, sets the activation
epoch of exactly those candidates to
`ComputeActivationExitEpoch(current_epoch)`, and leaves every other
registry entry unchanged. -/
theorem claim6_activation (spec : SpecConfig) (epc : EpochsContextModel)
    (process : EpochProcess) (finalizedEpoch : Nat) (registry : List FlatValidator)
    (hnd : process.IndicesToMaybeActivate.Nodup) :
    ∀ j, (processActivationsPass process finalizedEpoch
        (ComputeActivationExitEpoch spec epc.currEpoch) registry)[j]? =
      if j ∈ (process.IndicesToMaybeActivate.take process.ChurnLimit).takeWhile
          (fun i => decide (statusEligibility process.Statuses i ≤ finalizedEpoch)) then
        (registry[j]?).map
          (fun v => { v with
            activationEpoch := ComputeActivationExitEpoch spec epc.currEpoch })
      else registry[j]? := by
  intro j
  unfold processActivationsPass
  dsimp only
  have hdeq : (if process.ChurnLimit < process.IndicesToMaybeActivate.length then
      process.IndicesToMaybeActivate.take process.ChurnLimit
      else process.IndicesToMaybeActivate) =
        process.IndicesToMaybeActivate.take process.ChurnLimit := by
    split_ifs with hc
    · rfl
    · rw [List.take_of_length_le (by omega)]
  rw [hdeq]
  exact processActivationsWalk_getElem? process.Statuses finalizedEpoch
    (ComputeActivationExitEpoch spec epc.currEpoch)
    (process.IndicesToMaybeActivate.take process.ChurnLimit) registry
    ((List.take_sublist _ _).nodup hnd) j

/-- Witness for C6: on the prepared process of `c5State` with finalized
epoch 0, the queue is `[1, 0]`; candidate 1 (eligibility 0) is activated,
candidate 0 (eligibility 1 > 0) stops the walk and stays unchanged. -/
theorem claim6_witness :
    (processActivationsPass (prepareOutcome sampleSpec sampleEpc c5State) 0
        (ComputeActivationExitEpoch sampleSpec sampleEpc.currEpoch)
        c5State.validators)[1]? =
      (c5State.validators[1]?).map
        (fun v => { v with
          activationEpoch := ComputeActivationExitEpoch sampleSpec sampleEpc.currEpoch }) ∧
    (processActivationsPass (prepareOutcome sampleSpec sampleEpc c5State) 0
        (ComputeActivationExitEpoch sampleSpec sampleEpc.currEpoch)
        c5State.validators)[0]? = c5State.validators[0]? := by
  have h := claim6_activation sampleSpec sampleEpc
    (prepareOutcome sampleSpec sampleEpc c5State) 0 c5State.validators (by decide)
  constructor
  · rw [h 1, if_pos (by decide)]
  · rw [h 0, if_neg (by decide)]

/-- C9: a validator whose exit epoch is already set is never queued for
ejection, keeps its registry entry through the ejection pass, and
`InitiateValidatorExit` returns the registry unchanged for any such
validator. -/
theorem claim9_exited_untouched (ctx : Nat → Bool) (spec : SpecConfig)
    (epc : EpochsContextModel) (st : StateModel) (ep : EpochProcess)
    (h : PrepareEpochProcess ctx spec epc st = .ok ep)
    (i : Nat) (v : FlatValidator) (hv : st.validators[i]? = some v)
    (hexit : v.exitEpoch ≠ FAR_FUTURE_EPOCH) :
    i ∉ ep.IndicesToEject ∧
    (processEjections spec.MIN_VALIDATOR_WITHDRAWABILITY_DELAY ep.ChurnLimit st.validators
        ep.IndicesToEject ep.ExitQueueEnd ep.ExitQueueEndChurn)[i]? = some v ∧
    (∀ (currentEpoch activeCount : Nat) (registry : List FlatValidator) (j : Nat)
        (w : FlatValidator),
      registry[j]? = some w → w.exitEpoch ≠ FAR_FUTURE_EPOCH →
      InitiateValidatorExit spec currentEpoch activeCount registry j = .ok registry) := by
  have hep := prepare_ok_elim ctx spec epc st ep h
  subst hep
  have hnotin : i ∉ (prepareOutcome spec epc st).IndicesToEject := by
    intro hc
    rcases mem_queueFilter.1 hc with ⟨w, hw, hp⟩
    rw [hv] at hw
    injection hw with hw
    subst hw
    simp only [Bool.and_eq_true, beq_iff_eq] at hp
    exact hexit hp.2
  refine ⟨hnotin, ?_, ?_⟩
  · rw [processEjections_frame _ _ _ _ _ _ _ hnotin, hv]
  · intro currentEpoch activeCount registry j w hw hwexit
    unfold InitiateValidatorExit
    rw [hw]
    dsimp only
    rw [if_pos hwexit]

/-- Witness for C9: validator 0 of `c10State` already exits at epoch 6. -/
theorem claim9_witness :
    0 ∉ (prepareOutcome sampleSpec sampleEpc c10State).IndicesToEject ∧
    (processEjections sampleSpec.MIN_VALIDATOR_WITHDRAWABILITY_DELAY
        (prepareOutcome sampleSpec sampleEpc c10State).ChurnLimit c10State.validators
        (prepareOutcome sampleSpec sampleEpc c10State).IndicesToEject
        (prepareOutcome sampleSpec sampleEpc c10State).ExitQueueEnd
        (prepareOutcome sampleSpec sampleEpc c10State).ExitQueueEndChurn)[0]? =
      some { sampleValidator with exitEpoch := 6 } ∧
    (∀ (currentEpoch activeCount : Nat) (registry : List FlatValidator) (j : Nat)
        (w : FlatValidator),
      registry[j]? = some w → w.exitEpoch ≠ FAR_FUTURE_EPOCH →
      InitiateValidatorExit sampleSpec currentEpoch activeCount registry j = .ok registry) :=
  claim9_exited_untouched (fun _ => false) sampleSpec sampleEpc c10State
    (prepareOutcome sampleSpec sampleEpc c10State) rfl 0
    { sampleValidator with exitEpoch := 6 } rfl (by decide)

end ZRNT
